import Mathlib

/-!
Shallow embedding of the scram fault-tree analyzer core, as extracted from the
repository headers: `ext.h` (sorted-range helpers), `expression/exponential.h`
(exponential, GLM and Weibull expressions) and `fault_tree.cc`
(`FaultTree::AddGate`, `FaultTree::Validate`, `FaultTree::CheckCyclicity`,
`FaultTree::GatherPrimaryEvents`, `FaultTree::GetPrimaryEvents`).

`double` values are modelled as real numbers; `std::map`/`boost::unordered_map`
are modelled as association lists whose list order is the container's iteration
order (`std::map` iterates in sorted key order, `boost::unordered_map` in an
unspecified but fixed order; `insert` never overwrites an existing key).
Recursion over the possibly-cyclic gate graph is made total with an explicit
fuel argument; exhausting fuel is reported as a distinguished `timeout` outcome
that cannot occur for real trees with enough fuel.
-/

set_option maxHeartbeats 1000000

namespace ext

/-- Fuel-indexed core of `ext::intersects` (iterator version, `ext.h`):
walks two ranges, advancing the side with the smaller head, and reports `true`
as soon as the heads are equal. -/
def intersectsAux : Nat → List Int → List Int → Bool
  | 0, _, _ => false
  | _ + 1, [], _ => false
  | _ + 1, _ :: _, [] => false
  | fuel + 1, a :: as, b :: bs =>
    if a < b then intersectsAux fuel as (b :: bs)
    else if b < a then intersectsAux fuel (a :: as) bs
    else true

/-- `ext::intersects` (range version): determines if two sorted ranges
intersect. The fuel `r1.length + r2.length` dominates the number of loop
iterations of the C++ `while` loop, so the fuelled run never times out. -/
def intersects (r1 r2 : List Int) : Bool :=
  intersectsAux (r1.length + r2.length) r1 r2

theorem intersectsAux_iff : ∀ (fuel : Nat) (l1 l2 : List Int),
    l1.length + l2.length ≤ fuel →
    List.Sorted (· ≤ ·) l1 → List.Sorted (· ≤ ·) l2 →
    (intersectsAux fuel l1 l2 = true ↔ ∃ x, x ∈ l1 ∧ x ∈ l2) := by
  intro fuel
  induction fuel with
  | zero =>
    intro l1 l2 hlen _ _
    interval_cases h : l1.length + l2.length
    cases l1 with
    | nil =>
      cases l2 with
      | nil => simp [intersectsAux]
      | cons b bs => simp at h
    | cons a as => simp at h
  | succ fuel ih =>
    intro l1 l2 hlen hs1 hs2
    cases l1 with
    | nil => simp [intersectsAux]
    | cons a as =>
      cases l2 with
      | nil => simp [intersectsAux]
      | cons b bs =>
        rw [List.sorted_cons] at hs1 hs2
        obtain ⟨ha, hs1'⟩ := hs1
        obtain ⟨hb, hs2'⟩ := hs2
        simp only [List.length_cons] at hlen
        by_cases hab : a < b
        · have hrec := ih as (b :: bs) (by simp; omega) hs1' (List.sorted_cons.mpr ⟨hb, hs2'⟩)
          simp only [intersectsAux, if_pos hab, hrec]
          constructor
          · rintro ⟨x, hx1, hx2⟩; exact ⟨x, List.mem_cons_of_mem a hx1, hx2⟩
          · rintro ⟨x, hx1, hx2⟩
            rcases List.mem_cons.mp hx1 with rfl | hx1'
            · rcases List.mem_cons.mp hx2 with rfl | hx2'
              · exact absurd rfl (ne_of_lt hab)
              · exact absurd (hb x hx2') (not_le.mpr hab)
            · exact ⟨x, hx1', hx2⟩
        · by_cases hba : b < a
          · have hrec := ih (a :: as) bs (by simp; omega)
              (List.sorted_cons.mpr ⟨ha, hs1'⟩) hs2'
            simp only [intersectsAux, if_neg hab, if_pos hba, hrec]
            constructor
            · rintro ⟨x, hx1, hx2⟩; exact ⟨x, hx1, List.mem_cons_of_mem b hx2⟩
            · rintro ⟨x, hx1, hx2⟩
              rcases List.mem_cons.mp hx2 with rfl | hx2'
              · rcases List.mem_cons.mp hx1 with rfl | hx1'
                · exact absurd rfl (ne_of_lt hba)
                · exact absurd (ha x hx1') (not_le.mpr hba)
              · exact ⟨x, hx1, hx2'⟩
          · have heq : a = b := le_antisymm (not_lt.mp hba) (not_lt.mp hab)
            subst heq
            simp only [intersectsAux, if_neg hab, if_neg hba]
            simp only [true_iff]
            exact ⟨a, List.mem_cons_self a as, List.mem_cons_self a bs⟩

end ext

/-- C10: on sorted inputs `ext::intersects` decides exactly whether some element
occurs in both ranges; on unsorted input the result can be wrong, witnessed by
`[1, 0]` and `[0, 2]`, which share the element `0` yet are reported disjoint. -/
theorem ext.intersects_correct :
    (∀ r1 r2 : List Int, List.Sorted (· ≤ ·) r1 → List.Sorted (· ≤ ·) r2 →
      (ext.intersects r1 r2 = true ↔ ∃ x, x ∈ r1 ∧ x ∈ r2)) ∧
    (ext.intersects [1, 0] [0, 2] = false ∧ (0 : Int) ∈ [1, 0] ∧ (0 : Int) ∈ [0, 2]) := by
  refine ⟨fun r1 r2 h1 h2 => ext.intersectsAux_iff _ r1 r2 le_rfl h1 h2, by decide, by decide, by decide⟩

/-- Witness for C10: evaluating the proven equivalence at the concrete sorted
ranges `[1, 3]` and `[2, 3]`, which share the element `3`. -/
theorem ext.intersects_correct_witness : ext.intersects [1, 3] [2, 3] = true :=
  (ext.intersects_correct.1 [1, 3] [2, 3] (by decide) (by decide)).mpr
    ⟨3, by decide, by decide⟩

namespace scram
namespace mef

/-- A child `Expression&` as the parent expression observes it: the values its
four virtual queries `Mean/Min/Max/Sample` return. `Sample` stands for one
value drawn by `Expression::Sample()` during the run under consideration. -/
structure ExprView where
  Mean : Real
  Min : Real
  Max : Real
  Sample : Real

namespace ExponentialExpression

/-- `ExponentialExpression::Mean`: `1 - exp(-(lambda_.Mean() * time_.Mean()))`. -/
noncomputable def Mean (lambda time : ExprView) : Real :=
  1 - Real.exp (-(lambda.Mean * time.Mean))

/-- `ExponentialExpression::Max`: `1 - exp(-(lambda_.Max() * time_.Max()))`. -/
noncomputable def Max (lambda time : ExprView) : Real :=
  1 - Real.exp (-(lambda.Max * time.Max))

/-- `ExponentialExpression::Min`: `1 - exp(-(lambda_.Min() * time_.Min()))`. -/
noncomputable def Min (lambda time : ExprView) : Real :=
  1 - Real.exp (-(lambda.Min * time.Min))

/-- `ExponentialExpression::DoSample`: `1 - exp(-(lambda_.Sample() * time_.Sample()))`. -/
noncomputable def DoSample (lambda time : ExprView) : Real :=
  1 - Real.exp (-(lambda.Sample * time.Sample))

end ExponentialExpression

namespace GlmExpression

/-- Modelled from the spec: `GlmExpression::Compute` is declared in
`exponential.h` but its body is not under `src/`; the spec describes GLM as
"computing the standard two-state Markov availability" for
`(γ, λ, μ, t)`, i.e. the unavailability `λ/(λ+μ) + (γ − λ/(λ+μ))·e^(−(λ+μ)t)`
that starts at `γ` and relaxes to the steady state `λ/(λ+μ)`. -/
noncomputable def Compute (gamma lambda mu time : Real) : Real :=
  lambda / (lambda + mu) + (gamma - lambda / (lambda + mu)) * Real.exp (-(lambda + mu) * time)

/-- `GlmExpression::Mean`, evaluating `Compute` on the children's means. -/
noncomputable def Mean (gamma lambda mu time : ExprView) : Real :=
  Compute gamma.Mean lambda.Mean mu.Mean time.Mean

/-- `GlmExpression::Max`: the constant `1` (stubbed, see the `@todo` in the source). -/
noncomputable def Max (_gamma _lambda _mu _time : ExprView) : Real := 1

/-- `GlmExpression::Min`: the constant `0` (stubbed, see the `@todo` in the source). -/
noncomputable def Min (_gamma _lambda _mu _time : ExprView) : Real := 0

end GlmExpression

namespace WeibullExpression

/-- Modelled from the spec: `WeibullExpression::Compute` is declared in
`exponential.h` but its body is not under `src/`; the spec gives the Weibull
law as `(α, β, t₀, t) ↦ 1 − e^(−((t−t₀)/α)^β)` (real-exponent power). -/
noncomputable def Compute (alpha beta t0 time : Real) : Real :=
  1 - Real.exp (-(((time - t0) / alpha) ^ beta))

/-- `WeibullExpression::Mean`:
`Compute(alpha_.Mean(), beta_.Mean(), t0_.Mean(), time_.Mean())`. -/
noncomputable def Mean (alpha beta t0 time : ExprView) : Real :=
  Compute alpha.Mean beta.Mean t0.Mean time.Mean

/-- `WeibullExpression::Max`:
`Compute(alpha_.Min(), beta_.Max(), t0_.Min(), time_.Max())`. -/
noncomputable def Max (alpha beta t0 time : ExprView) : Real :=
  Compute alpha.Min beta.Max t0.Min time.Max

/-- `WeibullExpression::Min`:
`Compute(alpha_.Max(), beta_.Min(), t0_.Max(), time_.Min())`. -/
noncomputable def Min (alpha beta t0 time : ExprView) : Real :=
  Compute alpha.Max beta.Min t0.Max time.Min

/-- `WeibullExpression::DoSample`:
`Compute(alpha_.Sample(), beta_.Sample(), t0_.Sample(), time_.Sample())`. -/
noncomputable def DoSample (alpha beta t0 time : ExprView) : Real :=
  Compute alpha.Sample beta.Sample t0.Sample time.Sample

end WeibullExpression

end mef
end scram

namespace scram
namespace mef

/-- The map `x ↦ 1 − e^(−x)` shared by the exponential-family expressions is
monotone increasing. -/
theorem one_sub_exp_neg_mono {x y : Real} (h : x ≤ y) :
    1 - Real.exp (-x) ≤ 1 - Real.exp (-y) :=
  sub_le_sub_left (Real.exp_le_exp.mpr (neg_le_neg h)) 1

/-- For a nonnegative exponent the map `x ↦ 1 − e^(−x)` lands in `[0, 1]`. -/
theorem one_sub_exp_neg_mem_unit {x : Real} (hx : 0 ≤ x) :
    0 ≤ 1 - Real.exp (-x) ∧ 1 - Real.exp (-x) ≤ 1 := by
  constructor
  · have h1 : Real.exp (-x) ≤ 1 := by
      rw [← Real.exp_zero]
      exact Real.exp_le_exp.mpr (neg_nonpos.mpr hx)
    linarith
  · have h2 : 0 < Real.exp (-x) := Real.exp_pos _
    linarith

end mef
end scram

/-- C3: for child expressions `lambda` and `t` whose means are nonnegative, the
exponential expression's `Mean()` returns `1 − exp(−(lambda.Mean·t.Mean))`,
i.e. it computes `(λ, t) ↦ 1 − e^(−λt)` on the children's mean values, and the
result lies in `[0, 1]`. -/
theorem scram.mef.ExponentialExpression.Mean_spec (lambda time : ExprView)
    (hl : 0 ≤ lambda.Mean) (ht : 0 ≤ time.Mean) :
    ExponentialExpression.Mean lambda time
        = 1 - Real.exp (-(lambda.Mean * time.Mean)) ∧
    0 ≤ ExponentialExpression.Mean lambda time ∧
    ExponentialExpression.Mean lambda time ≤ 1 := by
  refine ⟨rfl, ?_, ?_⟩
  · exact (one_sub_exp_neg_mem_unit (mul_nonneg hl ht)).1
  · exact (one_sub_exp_neg_mem_unit (mul_nonneg hl ht)).2

/-- Witness for C3 at the constant child views `1` and `1`. -/
theorem scram.mef.ExponentialExpression.Mean_spec_witness :
    0 ≤ ExponentialExpression.Mean ⟨1, 1, 1, 1⟩ ⟨1, 1, 1, 1⟩ ∧
    ExponentialExpression.Mean ⟨1, 1, 1, 1⟩ ⟨1, 1, 1, 1⟩ ≤ 1 :=
  ⟨(ExponentialExpression.Mean_spec ⟨1, 1, 1, 1⟩ ⟨1, 1, 1, 1⟩ zero_le_one zero_le_one).2.1,
   (ExponentialExpression.Mean_spec ⟨1, 1, 1, 1⟩ ⟨1, 1, 1, 1⟩ zero_le_one zero_le_one).2.2⟩

/-- Counterexample to C2 as stated: the Weibull expression node, with perfectly
valid children (`α = 2` constant, `β` ranging over `[1, 2]` with mean `1`,
`t₀ = 0`, `t = 1` constants, so `α > 0`, `β > 0`, `t ≥ t₀` and every child has
`Min ≤ Mean ≤ Max`), violates `Mean() ≤ Max()`: because the base `(t−t₀)/α = 1/2`
is below `1`, raising it to the larger exponent `β.Max` shrinks the result. -/
theorem scram.mef.weibull_interval_violation :
    (0 < (⟨2, 2, 2, 2⟩ : ExprView).Min ∧ 0 < (⟨1, 1, 2, 1⟩ : ExprView).Min ∧
      (⟨0, 0, 0, 0⟩ : ExprView).Max ≤ (⟨1, 1, 1, 1⟩ : ExprView).Min) ∧
    ((⟨1, 1, 2, 1⟩ : ExprView).Min ≤ (⟨1, 1, 2, 1⟩ : ExprView).Mean ∧
      (⟨1, 1, 2, 1⟩ : ExprView).Mean ≤ (⟨1, 1, 2, 1⟩ : ExprView).Max) ∧
    ¬ (WeibullExpression.Mean ⟨2, 2, 2, 2⟩ ⟨1, 1, 2, 1⟩ ⟨0, 0, 0, 0⟩ ⟨1, 1, 1, 1⟩ ≤
        WeibullExpression.Max ⟨2, 2, 2, 2⟩ ⟨1, 1, 2, 1⟩ ⟨0, 0, 0, 0⟩ ⟨1, 1, 1, 1⟩) := by
  refine ⟨⟨by norm_num, by norm_num, by norm_num⟩, ⟨by norm_num, by norm_num⟩, ?_⟩
  rw [not_le]
  show WeibullExpression.Compute 2 2 0 1 < WeibullExpression.Compute 2 1 0 1
  unfold WeibullExpression.Compute
  have h1 : ((1 : Real) - 0) / 2 = 1 / 2 := by norm_num
  have h2 : ((1 : Real) / 2) ^ (1 : Real) = 1 / 2 := Real.rpow_one _
  have h4 : ((1 : Real) / 2) ^ (2 : Real) = 1 / 4 := by
    rw [show (2 : Real) = ((2 : Nat) : Real) by norm_num, Real.rpow_natCast]
    norm_num
  rw [h1, h2, h4]
  have := Real.exp_lt_exp.mpr (show (-(1/2) : Real) < -(1/4) by norm_num)
  linarith

/-- C2 (amended): the interval invariant holds for the expression nodes whose
interval logic is in the source, under their validated domains: for the
exponential expression with nonnegative, correctly ordered child intervals,
`Min() ≤ Mean() ≤ Max()` with all values in `[0, 1]`; and the GLM expression
has `Max() = 1` and `Min() = 0` regardless of its parameters, with its mean
(the two-state Markov availability) lying between them for `γ ∈ [0, 1]`,
`λ, μ, t ≥ 0`, `λ + μ > 0`. (The Weibull node violates the unrestricted
invariant, see the counterexample.) -/
theorem scram.mef.expression_interval_invariant
    (l t g lam mu tm : ExprView)
    (hl0 : 0 ≤ l.Min) (hl1 : l.Min ≤ l.Mean) (hl2 : l.Mean ≤ l.Max)
    (ht0 : 0 ≤ t.Min) (ht1 : t.Min ≤ t.Mean) (ht2 : t.Mean ≤ t.Max)
    (hg0 : 0 ≤ g.Mean) (hg1 : g.Mean ≤ 1)
    (hlam : 0 ≤ lam.Mean) (hmu : 0 ≤ mu.Mean) (hr : 0 < lam.Mean + mu.Mean)
    (htm : 0 ≤ tm.Mean) :
    (ExponentialExpression.Min l t ≤ ExponentialExpression.Mean l t ∧
     ExponentialExpression.Mean l t ≤ ExponentialExpression.Max l t ∧
     0 ≤ ExponentialExpression.Min l t ∧ ExponentialExpression.Max l t ≤ 1) ∧
    (GlmExpression.Max g lam mu tm = 1 ∧ GlmExpression.Min g lam mu tm = 0 ∧
     GlmExpression.Min g lam mu tm ≤ GlmExpression.Mean g lam mu tm ∧
     GlmExpression.Mean g lam mu tm ≤ GlmExpression.Max g lam mu tm) := by
  have hl0' : 0 ≤ l.Mean := le_trans hl0 hl1
  have ht0' : 0 ≤ t.Mean := le_trans ht0 ht1
  refine ⟨⟨?_, ?_, ?_, ?_⟩, rfl, rfl, ?_, ?_⟩
  · exact one_sub_exp_neg_mono (mul_le_mul hl1 ht1 ht0 hl0')
  · exact one_sub_exp_neg_mono (mul_le_mul hl2 ht2 ht0' (le_trans hl0' hl2))
  · exact (one_sub_exp_neg_mem_unit (mul_nonneg hl0 ht0)).1
  · exact (one_sub_exp_neg_mem_unit
      (mul_nonneg (le_trans hl0' hl2) (le_trans ht0' ht2))).2
  all_goals {
    have ha0 : 0 < Real.exp (-(lam.Mean + mu.Mean) * tm.Mean) := Real.exp_pos _
    have ha1 : Real.exp (-(lam.Mean + mu.Mean) * tm.Mean) ≤ 1 := by
      rw [← Real.exp_zero]
      apply Real.exp_le_exp.mpr
      have : 0 ≤ (lam.Mean + mu.Mean) * tm.Mean := mul_nonneg hr.le htm
      linarith
    have hq0 : 0 ≤ lam.Mean / (lam.Mean + mu.Mean) := div_nonneg hlam hr.le
    have hq1 : lam.Mean / (lam.Mean + mu.Mean) ≤ 1 :=
      (div_le_one hr).mpr (le_add_of_nonneg_right hmu)
    have hkey : GlmExpression.Mean g lam mu tm =
        lam.Mean / (lam.Mean + mu.Mean) *
            (1 - Real.exp (-(lam.Mean + mu.Mean) * tm.Mean)) +
          g.Mean * Real.exp (-(lam.Mean + mu.Mean) * tm.Mean) := by
      unfold GlmExpression.Mean GlmExpression.Compute
      ring
    simp only [GlmExpression.Min, GlmExpression.Max]
    rw [hkey]
    nlinarith [mul_nonneg hq0 (sub_nonneg.mpr ha1), mul_nonneg hg0 ha0.le,
      mul_nonneg (sub_nonneg.mpr hq1) (sub_nonneg.mpr ha1),
      mul_nonneg (sub_nonneg.mpr hg1) ha0.le]
  }

/-- Witness for the amended C2 at constant child views. -/
theorem scram.mef.expression_interval_invariant_witness :
    0 ≤ ExponentialExpression.Min ⟨1, 1, 1, 1⟩ ⟨1, 1, 1, 1⟩ ∧
    GlmExpression.Max ⟨1, 1, 1, 1⟩ ⟨1, 1, 1, 1⟩ ⟨1, 1, 1, 1⟩ ⟨1, 1, 1, 1⟩ = 1 :=
  ⟨(expression_interval_invariant ⟨1, 1, 1, 1⟩ ⟨1, 1, 1, 1⟩ ⟨1, 1, 1, 1⟩ ⟨1, 1, 1, 1⟩
      ⟨1, 1, 1, 1⟩ ⟨1, 1, 1, 1⟩ zero_le_one le_rfl le_rfl zero_le_one le_rfl le_rfl
      zero_le_one le_rfl zero_le_one zero_le_one (by norm_num) zero_le_one).1.2.2.1,
   (expression_interval_invariant ⟨1, 1, 1, 1⟩ ⟨1, 1, 1, 1⟩ ⟨1, 1, 1, 1⟩ ⟨1, 1, 1, 1⟩
      ⟨1, 1, 1, 1⟩ ⟨1, 1, 1, 1⟩ zero_le_one le_rfl le_rfl zero_le_one le_rfl le_rfl
      zero_le_one le_rfl zero_le_one zero_le_one (by norm_num) zero_le_one).2.1⟩

/-- C4 (amended): for the Weibull expression, under the valid parameter domains
(`α > 0`, `β ≥ 0`, `t ≥ t₀`), with every child's sample inside that child's
`[Min, Max]` interval, and under the additional hypothesis that the exponent
base stays at least `1` over the whole ranges (`alpha.Max ≤ time.Min − t0.Max`,
which makes `Compute` monotone in every argument, in particular increasing in
`β`), every value of `Sample` lies in `[Min(), Max()]` — no rounding tolerance
is even needed. Without the base hypothesis the claim fails, see the
counterexample. -/
theorem scram.mef.WeibullExpression.sample_within_bounds
    (alpha beta t0 time : ExprView)
    (ha0 : 0 < alpha.Min) (ha1 : alpha.Min ≤ alpha.Sample) (ha2 : alpha.Sample ≤ alpha.Max)
    (hb0 : 0 ≤ beta.Min) (hb1 : beta.Min ≤ beta.Sample) (hb2 : beta.Sample ≤ beta.Max)
    (ht1 : t0.Min ≤ t0.Sample) (ht2 : t0.Sample ≤ t0.Max)
    (hm1 : time.Min ≤ time.Sample) (hm2 : time.Sample ≤ time.Max)
    (hbase : alpha.Max ≤ time.Min - t0.Max) :
    WeibullExpression.Min alpha beta t0 time
        ≤ WeibullExpression.DoSample alpha beta t0 time ∧
    WeibullExpression.DoSample alpha beta t0 time
        ≤ WeibullExpression.Max alpha beta t0 time := by
  have haS : 0 < alpha.Sample := lt_of_lt_of_le ha0 ha1
  have haM : 0 < alpha.Max := lt_of_lt_of_le haS ha2
  have hnum0 : 0 < time.Min - t0.Max := lt_of_lt_of_le haM hbase
  have h1 : 1 ≤ (time.Min - t0.Max) / alpha.Max := (one_le_div haM).mpr hbase
  have hnum1 : time.Min - t0.Max ≤ time.Sample - t0.Sample := sub_le_sub hm1 ht2
  have hnum2 : time.Sample - t0.Sample ≤ time.Max - t0.Min := sub_le_sub hm2 ht1
  have h2 : (time.Min - t0.Max) / alpha.Max ≤ (time.Sample - t0.Sample) / alpha.Sample :=
    div_le_div (le_trans hnum0.le hnum1) hnum1 haS ha2
  have h3 : (time.Sample - t0.Sample) / alpha.Sample ≤ (time.Max - t0.Min) / alpha.Min :=
    div_le_div (le_trans (le_trans hnum0.le hnum1) hnum2) hnum2 ha0 ha1
  have hbLo0 : (0 : Real) ≤ (time.Min - t0.Max) / alpha.Max := le_trans zero_le_one h1
  have h1S : 1 ≤ (time.Sample - t0.Sample) / alpha.Sample := le_trans h1 h2
  have e1 : ((time.Min - t0.Max) / alpha.Max) ^ beta.Min
      ≤ ((time.Sample - t0.Sample) / alpha.Sample) ^ beta.Min :=
    Real.rpow_le_rpow hbLo0 h2 hb0
  have e2 : ((time.Sample - t0.Sample) / alpha.Sample) ^ beta.Min
      ≤ ((time.Sample - t0.Sample) / alpha.Sample) ^ beta.Sample :=
    Real.rpow_le_rpow_of_exponent_le h1S hb1
  have e3 : ((time.Sample - t0.Sample) / alpha.Sample) ^ beta.Sample
      ≤ ((time.Max - t0.Min) / alpha.Min) ^ beta.Sample :=
    Real.rpow_le_rpow (le_trans hbLo0 h2) h3 (le_trans hb0 hb1)
  have e4 : ((time.Max - t0.Min) / alpha.Min) ^ beta.Sample
      ≤ ((time.Max - t0.Min) / alpha.Min) ^ beta.Max :=
    Real.rpow_le_rpow_of_exponent_le (le_trans h1S h3) hb2
  constructor
  · exact one_sub_exp_neg_mono (le_trans e1 e2)
  · exact one_sub_exp_neg_mono (le_trans e3 e4)

/-- Witness for the amended C4 at constant child views `α = 1`, `β = 1`,
`t₀ = 0`, `t = 2`. -/
theorem scram.mef.WeibullExpression.sample_within_bounds_witness :
    WeibullExpression.Min ⟨1, 1, 1, 1⟩ ⟨1, 1, 1, 1⟩ ⟨0, 0, 0, 0⟩ ⟨2, 2, 2, 2⟩
        ≤ WeibullExpression.DoSample ⟨1, 1, 1, 1⟩ ⟨1, 1, 1, 1⟩ ⟨0, 0, 0, 0⟩ ⟨2, 2, 2, 2⟩ :=
  (WeibullExpression.sample_within_bounds ⟨1, 1, 1, 1⟩ ⟨1, 1, 1, 1⟩ ⟨0, 0, 0, 0⟩
    ⟨2, 2, 2, 2⟩ zero_lt_one le_rfl le_rfl zero_le_one le_rfl le_rfl le_rfl le_rfl
    le_rfl le_rfl (by norm_num)).1

/-- Counterexample to C4 as stated: with valid domains (`α = 2` constant,
`β` sampling `1` inside its interval `[1, 4]`, `t₀ = 0`, `t = 1` constants)
the sampled value `1 − e^(−1/2)` exceeds `Max() = 1 − e^(−1/16)` by more than
`1/4`, far beyond any rounding tolerance: the source picks `beta_.Max()` for
`Max()` although the base `1/2` is below `1`, so the larger exponent shrinks
the value. -/
theorem scram.mef.weibull_sample_escapes_bounds :
    ((0 : Real) < (⟨2, 2, 2, 2⟩ : ExprView).Min ∧
      (⟨2, 1, 4, 1⟩ : ExprView).Min ≤ (⟨2, 1, 4, 1⟩ : ExprView).Sample ∧
      (⟨2, 1, 4, 1⟩ : ExprView).Sample ≤ (⟨2, 1, 4, 1⟩ : ExprView).Max ∧
      (⟨0, 0, 0, 0⟩ : ExprView).Max ≤ (⟨1, 1, 1, 1⟩ : ExprView).Min) ∧
    WeibullExpression.Max ⟨2, 2, 2, 2⟩ ⟨2, 1, 4, 1⟩ ⟨0, 0, 0, 0⟩ ⟨1, 1, 1, 1⟩ + 1 / 4 <
      WeibullExpression.DoSample ⟨2, 2, 2, 2⟩ ⟨2, 1, 4, 1⟩ ⟨0, 0, 0, 0⟩ ⟨1, 1, 1, 1⟩ := by
  refine ⟨⟨by norm_num, by norm_num, by norm_num, by norm_num⟩, ?_⟩
  show WeibullExpression.Compute 2 4 0 1 + 1 / 4 < WeibullExpression.Compute 2 1 0 1
  unfold WeibullExpression.Compute
  have h1 : ((1 : Real) - 0) / 2 = 1 / 2 := by norm_num
  have h2 : ((1 : Real) / 2) ^ (1 : Real) = 1 / 2 := Real.rpow_one _
  have h4 : ((1 : Real) / 2) ^ (4 : Real) = 1 / 16 := by
    rw [show (4 : Real) = ((4 : Nat) : Real) by norm_num, Real.rpow_natCast]
    norm_num
  rw [h1, h2, h4]
  have hA : (15 : Real) / 16 ≤ Real.exp (-(1 / 16)) := by
    have := Real.add_one_le_exp (-(1 / 16) : Real)
    linarith
  have hB : Real.exp (-(1 / 2) : Real) ≤ 2 / 3 := by
    have hE : (3 : Real) / 2 ≤ Real.exp (1 / 2) := by
      have := Real.add_one_le_exp ((1 : Real) / 2)
      linarith
    have hinv : (Real.exp ((1 : Real) / 2))⁻¹ ≤ ((3 : Real) / 2)⁻¹ :=
      inv_le_inv_of_le (by norm_num) hE
    rw [Real.exp_neg]
    calc (Real.exp ((1 : Real) / 2))⁻¹ ≤ ((3 : Real) / 2)⁻¹ := hinv
      _ = 2 / 3 := by norm_num
  linarith

namespace scram

/-- The dynamic type of an `EventPtr` as the validator observes it through
`dynamic_pointer_cast`: a `Gate`, a `BasicEvent`, a `HouseEvent`, or a plain
base `Event` (neither a gate nor a primary event, e.g. an undefined node). -/
inductive EKind where
  | gate : EKind
  | basic : EKind
  | house : EKind
  | plain : EKind
deriving DecidableEq

/-- A shared `EventPtr` as seen from a parent's `children()` map: its
normalized identifier, its original (case-preserving) identifier, and its
dynamic type. -/
structure ERef where
  id : String
  orig : String
  kind : EKind
deriving DecidableEq

/-- The `Gate` object behind a gate identifier: its original identifier and its
`children()` map. `std::map<std::string, EventPtr>` iterates in sorted key
order, so the list order of `children` is the iteration order. -/
structure GateDef where
  orig : String
  children : List (String × ERef)
deriving DecidableEq

/-- An association-list map. The list order is the container's iteration
order; lookups return the first binding. -/
abbrev SMap := List (String × String)

/-- Resolver from gate identifiers to the `Gate` objects the shared pointers
point to (the object graph, which may be cyclic through identifiers). -/
abbrev GEnv := List (String × GateDef)

/-- `container.find(key)`: first binding of `key`, if any. -/
def lookupA {α : Type} : List (String × α) → String → Option α
  | [], _ => none
  | (k, v) :: rest, key => if k = key then some v else lookupA rest key

/-- `container.insert(make_pair(k, v))`: a no-op when the key is present,
otherwise the new binding is added (at the end, extending the iteration
order). -/
def insertA {α : Type} (m : List (String × α)) (k : String) (v : α) :
    List (String × α) :=
  if (lookupA m k).isSome then m else m ++ [(k, v)]

/-- A `GatePtr` as `FaultTree::AddGate` receives it: identifier, original
identifier, and the keys of its `parents()` map (`Event::parents()` throws
`LogicError` when this list is empty). -/
structure GateObj where
  id : String
  orig : String
  parents : List String
deriving DecidableEq

/-- The mutable state of a `FaultTree` object relevant to gate registration
and validation. -/
structure FT where
  name : String
  top_event_id : String
  top_orig : String
  inter_events : SMap
  implicit_gates : SMap
  primary_events : List (String × ERef)
  basic_events : List (String × ERef)
  house_events : List (String × ERef)
deriving DecidableEq

namespace FaultTree

/-- `FaultTree::FaultTree(name)`: a freshly constructed tree. -/
def newFT (name : String) : FT :=
  ⟨name, "", "", [], [], [], [], []⟩

/-- `FaultTree::AddGate`: the first gate becomes the top event; later gates
are checked for duplicate definition, then for a pre-declared parent
(`Event::parents()` throws `LogicError` on an empty parent map, which
`AddGate` converts to a dangling-gate `ValidationError`), and finally
registered in `inter_events_`. -/
def AddGate (s : FT) (g : GateObj) : Except String FT :=
  if s.top_event_id = "" then
    .ok { s with top_event_id := g.id, top_orig := g.orig }
  else if (lookupA s.inter_events g.id).isSome ∨ g.id = s.top_event_id then
    .error ("Trying to doubly define a gate '" ++ g.orig ++ "'.")
  else if g.parents.isEmpty then
    .error ("Gate '" ++ g.orig ++ "' is a dangling gate in" ++
      " a malformed tree input structure. ")
  else if g.parents.any (fun p => (lookupA s.inter_events p).isSome || s.top_event_id = p) then
    .ok { s with inter_events := s.inter_events ++ [(g.id, g.orig)] }
  else
    .error ("Gate '" ++ g.orig ++ "' has no pre-decleared" ++
      " parent gate in '" ++ s.name ++ "' fault tree. This gate is a dangling gate." ++
      " The tree structure input might be malformed.")

/-- `inter_events_.find(k)->second->orig_id()` (guarded in the source by
`assert(inter_events_.count(k))`, so the default branch is never taken on real
runs). -/
def origOf (inter : SMap) (k : String) : String :=
  (lookupA inter k).getD k

/-- `std::find(path.begin(), path.end(), gid)` followed by iteration to the
end: the suffix of `path` starting at the first occurrence of `gid`. -/
def dropToFirst (gid : String) : List String → List String
  | [] => []
  | x :: rest => if x = gid then x :: rest else dropToFirst gid rest

/-- The `for` loop of the cycle diagnostic: one `"->" + orig` chunk per path
element from the first occurrence of the repeated gate to the end. -/
def arrowChain (inter : SMap) : List String → String
  | [] => ""
  | [x] => "->" ++ origOf inter x
  | x :: y :: rest => "->" ++ origOf inter x ++ arrowChain inter (y :: rest)

/-- The `ValidationError` message built by `FaultTree::CheckCyclicity` when a
gate repeats on the current path. -/
def cycleMsg (name : String) (inter : SMap) (porig : String) (cyc : List String) : String :=
  "Detected a cyclicity in '" ++ name ++ "' fault tree:\n" ++ porig ++ arrowChain inter cyc

/-- Outcome of a fuelled traversal: normal return, a thrown
`ValidationError`, or fuel exhaustion (an artifact of the embedding that
cannot occur with enough fuel). -/
inductive VRes where
  | ok : VRes
  | err : String → VRes
  | timeout : VRes
deriving DecidableEq

/-- A pending step of `FaultTree::CheckCyclicity`: either the body of a call
on a gate, or the children loop of a call. -/
inductive Job where
  | visit : String → GateDef → List String → List String → Job
  | kids : List (String × ERef) → List String → List String → Job
deriving DecidableEq

/-- `FaultTree::CheckCyclicity(parent, path, visited)` (`path` and `visited`
are passed by value in the source, so `visited` is exactly the set of gates on
the current path). A `visit gid gd path visited` step pushes `gid` onto the
path, raises the cycle diagnostic if `gid` is already on it, and otherwise
walks the children; each gate-typed child absent from `inter_events_` is
inserted into both `implicit_gates_` and `inter_events_` before the recursive
call. Fuel decreases on every step, so the recursion is total even on cyclic
object graphs. -/
def CheckCyclicity (name : String) (env : GEnv) :
    Nat → SMap → SMap → Job → VRes × SMap × SMap
  | 0, inter, impl, _ => (.timeout, inter, impl)
  | fuel + 1, inter, impl, .visit gid gd path visited =>
    if gid ∈ visited then
      (.err (cycleMsg name inter gd.orig (dropToFirst gid (path ++ [gid]))), inter, impl)
    else
      CheckCyclicity name env fuel inter impl (.kids gd.children (path ++ [gid]) (gid :: visited))
  | _ + 1, inter, impl, .kids [] _ _ => (.ok, inter, impl)
  | fuel + 1, inter, impl, .kids ((_, ev) :: rest) path visited =>
    if ev.kind = .gate then
      match lookupA env ev.id with
      | some cgd =>
        let inter1 := if (lookupA inter ev.id).isSome then inter
                      else inter ++ [(ev.id, cgd.orig)]
        let impl1 := if (lookupA inter ev.id).isSome then impl
                     else insertA impl ev.id cgd.orig
        match CheckCyclicity name env fuel inter1 impl1 (.visit ev.id cgd path visited) with
        | (.ok, i2, m2) => CheckCyclicity name env fuel i2 m2 (.kids rest path visited)
        | (.err e, i2, m2) => (.err e, i2, m2)
        | (.timeout, i2, m2) => (.timeout, i2, m2)
      | none => CheckCyclicity name env fuel inter impl (.kids rest path visited)
    else
      CheckCyclicity name env fuel inter impl (.kids rest path visited)

/-- The `ValidationError` message of `FaultTree::GetPrimaryEvents` for a child
that is neither a registered gate nor a primary event. -/
def undefMsg (orig name : String) : String :=
  "Node with id '" ++ orig ++ "' was not defined in '" ++ name ++ "' tree"

/-- Accumulators for discovered primary events. -/
abbrev PMap := List (String × ERef)

/-- `FaultTree::GetPrimaryEvents(gate)`: walks the gate's children; a child
whose key is in `inter_events_` is skipped, a basic or house event is inserted
into `primary_events_` and the matching specialized index, and anything else
raises the undefined-node `ValidationError`. -/
def GetPrimaryEvents (name : String) (inter : SMap) :
    List (String × ERef) → PMap → PMap → PMap → Option String × PMap × PMap × PMap
  | [], p, b, h => (none, p, b, h)
  | (k, ev) :: rest, p, b, h =>
    if (lookupA inter k).isSome then GetPrimaryEvents name inter rest p b h
    else
      match ev.kind with
      | .basic => GetPrimaryEvents name inter rest (insertA p k ev) (insertA b k ev) h
      | .house => GetPrimaryEvents name inter rest (insertA p k ev) b (insertA h k ev)
      | _ => (some (undefMsg ev.orig name), p, b, h)

/-- The loop of `FaultTree::GatherPrimaryEvents` over `inter_events_` (a
`boost::unordered_map`; the list order stands for its iteration order). -/
def GatherLoop (name : String) (env : GEnv) (inter : SMap) :
    List (String × String) → PMap → PMap → PMap → Option String × PMap × PMap × PMap
  | [], p, b, h => (none, p, b, h)
  | (gid, _) :: rest, p, b, h =>
    match lookupA env gid with
    | none => GatherLoop name env inter rest p b h
    | some gd =>
      match GetPrimaryEvents name inter gd.children p b h with
      | (none, p1, b1, h1) => GatherLoop name env inter rest p1 b1 h1
      | (some e, p1, b1, h1) => (some e, p1, b1, h1)

/-- `FaultTree::GatherPrimaryEvents`: `GetPrimaryEvents(top_event_)` followed
by the loop over `inter_events_`. -/
def GatherPrimaryEvents (name : String) (env : GEnv) (inter : SMap) (topGd : GateDef)
    (p b h : PMap) : Option String × PMap × PMap × PMap :=
  match GetPrimaryEvents name inter topGd.children p b h with
  | (none, p1, b1, h1) => GatherLoop name env inter inter p1 b1 h1
  | (some e, p1, b1, h1) => (some e, p1, b1, h1)

/-- `FaultTree::Validate`: runs `CheckCyclicity(top_event_, path, visited)`
with empty path and visited set, then clears `primary_events_` and runs
`GatherPrimaryEvents`. The first component of the result is the raised
`ValidationError` message (if any); the second is the fault-tree state after
the call, including the mutations made before a throw. `none` stands for fuel
exhaustion only. -/
def Validate (env : GEnv) (fuel : Nat) (topGd : GateDef) (s : FT) :
    Option (Option String × FT) :=
  match CheckCyclicity s.name env fuel s.inter_events s.implicit_gates
      (.visit s.top_event_id topGd [] []) with
  | (.timeout, _, _) => none
  | (.err e, i, m) => some (some e, { s with inter_events := i, implicit_gates := m })
  | (.ok, i, m) =>
    match GatherPrimaryEvents s.name env i topGd [] s.basic_events s.house_events with
    | (some e, p, b, h) =>
      some (some e, { s with inter_events := i, implicit_gates := m,
                             primary_events := p, basic_events := b, house_events := h })
    | (none, p, b, h) =>
      some (none, { s with inter_events := i, implicit_gates := m,
                           primary_events := p, basic_events := b, house_events := h })

end FaultTree
end scram

namespace scram
namespace FaultTree

/-- C5: `AddGate` accepts the first gate unconditionally as the top event;
afterwards it rejects a gate whose identifier equals the top gate's or an
already-registered gate's identifier (duplicate definition), rejects a gate
none of whose parents is the top gate or a registered gate (dangling gate,
including the no-parents `LogicError` case), and otherwise registers the gate
in `inter_events_`. -/
theorem AddGate_spec (s : FT) (g : GateObj) :
    (s.top_event_id = "" →
      AddGate s g = .ok { s with top_event_id := g.id, top_orig := g.orig }) ∧
    (s.top_event_id ≠ "" →
      ((lookupA s.inter_events g.id).isSome ∨ g.id = s.top_event_id) →
      ∃ e, AddGate s g = .error e) ∧
    (s.top_event_id ≠ "" →
      ¬ ((lookupA s.inter_events g.id).isSome ∨ g.id = s.top_event_id) →
      ¬ (∃ p ∈ g.parents, ((lookupA s.inter_events p).isSome ∨ s.top_event_id = p)) →
      ∃ e, AddGate s g = .error e) ∧
    (s.top_event_id ≠ "" →
      ¬ ((lookupA s.inter_events g.id).isSome ∨ g.id = s.top_event_id) →
      (∃ p ∈ g.parents, ((lookupA s.inter_events p).isSome ∨ s.top_event_id = p)) →
      AddGate s g = .ok { s with inter_events := s.inter_events ++ [(g.id, g.orig)] }) := by
  have hany : (g.parents.any
        (fun p => (lookupA s.inter_events p).isSome || s.top_event_id = p) = true)
      ↔ ∃ p ∈ g.parents, ((lookupA s.inter_events p).isSome ∨ s.top_event_id = p) := by
    simp [List.any_eq_true]
  refine ⟨?_, ?_, ?_, ?_⟩
  · intro h1
    unfold AddGate
    rw [if_pos h1]
  · intro h1 h2
    unfold AddGate
    rw [if_neg h1, if_pos h2]
    exact ⟨_, rfl⟩
  · intro h1 h2 h3
    unfold AddGate
    rw [if_neg h1, if_neg h2]
    by_cases hemp : g.parents.isEmpty
    · rw [if_pos hemp]
      exact ⟨_, rfl⟩
    · rw [if_neg hemp, if_neg (by rw [hany]; exact h3)]
      exact ⟨_, rfl⟩
  · intro h1 h2 h3
    unfold AddGate
    have hemp : ¬ (g.parents.isEmpty = true) := by
      obtain ⟨p, hp, _⟩ := h3
      intro he
      rw [List.isEmpty_iff] at he
      rw [he] at hp
      exact List.not_mem_nil p hp
    rw [if_neg h1, if_neg h2, if_neg hemp, if_pos (hany.mpr h3)]

/-- Witness for C5: an empty tree accepts `G1` as top, and then accepts `G2`
whose parent is the top gate, registering it in `inter_events_`. -/
theorem AddGate_spec_witness :
    AddGate (newFT "TheTree") ⟨"g1", "G1", []⟩
        = .ok { newFT "TheTree" with top_event_id := "g1", top_orig := "G1" } ∧
    AddGate { newFT "TheTree" with top_event_id := "g1", top_orig := "G1" }
        ⟨"g2", "G2", ["g1"]⟩
      = .ok { { newFT "TheTree" with top_event_id := "g1", top_orig := "G1" } with
              inter_events := [("g2", "G2")] } :=
  ⟨(AddGate_spec (newFT "TheTree") ⟨"g1", "G1", []⟩).1 rfl,
   (AddGate_spec { newFT "TheTree" with top_event_id := "g1", top_orig := "G1" }
      ⟨"g2", "G2", ["g1"]⟩).2.2.2 (by decide) (by decide)
      ⟨"g1", by decide, Or.inr rfl⟩⟩

/-- The spec's rendering of a cycle path: identifiers joined by arrows, as in
`G1->G2->G1`. -/
def renderCycle : List String → String
  | [] => ""
  | [x] => x
  | x :: y :: rest => x ++ "->" ++ renderCycle (y :: rest)

theorem dropToFirst_ne_nil (gid : String) :
    ∀ path : List String, dropToFirst gid (path ++ [gid]) ≠ [] := by
  intro path
  induction path with
  | nil => simp [dropToFirst]
  | cons x rest ih =>
    by_cases hx : x = gid
    · simp [dropToFirst, hx]
    · simpa [dropToFirst, hx] using ih

theorem arrowChain_eq_render (inter : SMap) :
    ∀ (l : List String) (x : String),
      arrowChain inter (x :: l) = "->" ++ renderCycle ((x :: l).map (origOf inter)) := by
  intro l
  induction l with
  | nil => intro x; simp [arrowChain, renderCycle]
  | cons y rest ih =>
    intro x
    show "->" ++ origOf inter x ++ arrowChain inter (y :: rest)
        = "->" ++ (origOf inter x ++ "->" ++ renderCycle ((y :: rest).map (origOf inter)))
    rw [ih y]
    simp only [String.append_assoc]

/-- The gate graph of the spec's cycle scenario: `G1` has child `G2`, `G2` has
child `G1`. -/
def g1Def : GateDef := ⟨"G1", [("g2", ⟨"g2", "G2", .gate⟩)]⟩

/-- The second gate of the cycle scenario. -/
def g2Def : GateDef := ⟨"G2", [("g1", ⟨"g1", "G1", .gate⟩)]⟩

/-- Object-graph resolver for the cycle scenario. -/
def cycEnv : GEnv := [("g1", g1Def), ("g2", g2Def)]

/-- The fault tree of the cycle scenario after `AddGate(G1); AddGate(G2)`. -/
def cycFT : FT := ⟨"TheTree", "g1", "G1", [("g2", "G2")], [], [], [], []⟩

/-- C1: when the DFS meets a gate already on the current path it raises
`ValidationError` whose message contains (as a suffix) the cycle path from the
first occurrence of that gate to the repeat, rendered with original
identifiers; in particular, for the tree where `G1` has child `G2` and `G2`
has child `G1`, validation fails with a diagnostic naming `G1->G2->G1`. -/
theorem CheckCyclicity_cycle_diagnostic :
    (∀ (name : String) (env : GEnv) (fuel : Nat) (inter impl : SMap) (gid : String)
        (gd : GateDef) (path visited : List String), gid ∈ visited →
      ∃ pre, CheckCyclicity name env (fuel + 1) inter impl (.visit gid gd path visited)
          = (.err (pre ++ renderCycle ((dropToFirst gid (path ++ [gid])).map (origOf inter))),
             inter, impl)) ∧
    (∃ pre s1, Validate cycEnv 10 g1Def cycFT = some (some (pre ++ "G1->G2->G1"), s1)) := by
  constructor
  · intro name env fuel inter impl gid gd path visited hmem
    obtain ⟨x, l, hxl⟩ := List.exists_cons_of_ne_nil (dropToFirst_ne_nil gid path)
    refine ⟨"Detected a cyclicity in '" ++ name ++ "' fault tree:\n" ++ gd.orig ++ "->", ?_⟩
    simp only [CheckCyclicity]
    rw [if_pos hmem]
    refine congrArg (fun m => (VRes.err m, inter, impl)) ?_
    unfold cycleMsg
    rw [hxl, arrowChain_eq_render inter l x, ← hxl]
    simp only [String.append_assoc]
  · exact ⟨"Detected a cyclicity in 'TheTree' fault tree:\nG1->",
      ⟨"TheTree", "g1", "G1", [("g2", "G2"), ("g1", "G1")], [("g1", "G1")], [], [], []⟩,
      by decide⟩

/-- Witness for C1: the general cycle-diagnostic branch evaluated at a
concrete repeated gate. -/
theorem CheckCyclicity_cycle_diagnostic_witness :
    ∃ pre, CheckCyclicity "T" [] 1 [] [] (.visit "g" ⟨"G", []⟩ ["g"] ["g"])
        = (.err (pre ++ renderCycle ((dropToFirst "g" (["g"] ++ ["g"])).map (origOf []))),
           [], []) :=
  CheckCyclicity_cycle_diagnostic.1 "T" [] 0 [] [] "g" ⟨"G", []⟩ ["g"] ["g"] (by decide)

end FaultTree
end scram

namespace scram
namespace FaultTree

theorem gp_cons_in {name : String} {inter : SMap} {k0 : String} {ev0 : ERef}
    {rest : List (String × ERef)} {p b h : PMap}
    (hin : (lookupA inter k0).isSome = true) :
    GetPrimaryEvents name inter ((k0, ev0) :: rest) p b h
      = GetPrimaryEvents name inter rest p b h := by
  simp [GetPrimaryEvents, hin]

theorem gp_cons_basic {name : String} {inter : SMap} {k0 : String} {ev0 : ERef}
    {rest : List (String × ERef)} {p b h : PMap}
    (hnone : lookupA inter k0 = none) (hk : ev0.kind = .basic) :
    GetPrimaryEvents name inter ((k0, ev0) :: rest) p b h
      = GetPrimaryEvents name inter rest (insertA p k0 ev0) (insertA b k0 ev0) h := by
  obtain ⟨i0, o0, kd0⟩ := ev0
  cases kd0 <;> simp_all [GetPrimaryEvents, hnone]

theorem gp_cons_house {name : String} {inter : SMap} {k0 : String} {ev0 : ERef}
    {rest : List (String × ERef)} {p b h : PMap}
    (hnone : lookupA inter k0 = none) (hk : ev0.kind = .house) :
    GetPrimaryEvents name inter ((k0, ev0) :: rest) p b h
      = GetPrimaryEvents name inter rest (insertA p k0 ev0) b (insertA h k0 ev0) := by
  obtain ⟨i0, o0, kd0⟩ := ev0
  cases kd0 <;> simp_all [GetPrimaryEvents, hnone]

theorem gp_cons_undef {name : String} {inter : SMap} {k0 : String} {ev0 : ERef}
    {rest : List (String × ERef)} {p b h : PMap}
    (hnone : lookupA inter k0 = none) (hb : ev0.kind ≠ .basic) (hh : ev0.kind ≠ .house) :
    GetPrimaryEvents name inter ((k0, ev0) :: rest) p b h
      = (some (undefMsg ev0.orig name), p, b, h) := by
  obtain ⟨i0, o0, kd0⟩ := ev0
  cases kd0 <;> simp_all [GetPrimaryEvents, hnone]

/-- If some child in the list is neither registered in `inter_events_` nor a
primary event, `GetPrimaryEvents` raises the undefined-node error, naming an
offending child's original identifier. -/
theorem gp_err_of_offender (name : String) (inter : SMap) :
    ∀ (cs : List (String × ERef)) (p b h : PMap),
      (∃ k ev, (k, ev) ∈ cs ∧ lookupA inter k = none ∧
        ev.kind ≠ .basic ∧ ev.kind ≠ .house) →
      ∃ k ev, (k, ev) ∈ cs ∧ lookupA inter k = none ∧
        ev.kind ≠ .basic ∧ ev.kind ≠ .house ∧
        (GetPrimaryEvents name inter cs p b h).1 = some (undefMsg ev.orig name) := by
  intro cs
  induction cs with
  | nil =>
    rintro p b h ⟨k, ev, hmem, _⟩
    exact absurd hmem (List.not_mem_nil _)
  | cons kv rest ih =>
    obtain ⟨k0, ev0⟩ := kv
    intro p b h hoff
    by_cases hin : (lookupA inter k0).isSome
    · obtain ⟨k, ev, hmem, hnone, hbk, hhk⟩ := hoff
      have hmem' : (k, ev) ∈ rest := by
        rcases List.mem_cons.mp hmem with heq | hmem'
        · cases heq
          rw [hnone] at hin
          simp at hin
        · exact hmem'
      obtain ⟨k', ev', hm, hn, hb', hh', hres⟩ := ih p b h ⟨k, ev, hmem', hnone, hbk, hhk⟩
      exact ⟨k', ev', List.mem_cons_of_mem _ hm, hn, hb', hh', by rw [gp_cons_in hin]; exact hres⟩
    · have hnone0 : lookupA inter k0 = none := by
        cases hl : lookupA inter k0
        · rfl
        · rw [hl] at hin; simp at hin
      by_cases hbk0 : ev0.kind = .basic
      · obtain ⟨k, ev, hmem, hnone, hbk, hhk⟩ := hoff
        have hmem' : (k, ev) ∈ rest := by
          rcases List.mem_cons.mp hmem with heq | hmem'
          · cases heq; exact absurd hbk0 hbk
          · exact hmem'
        obtain ⟨k', ev', hm, hn, hb', hh', hres⟩ :=
          ih (insertA p k0 ev0) (insertA b k0 ev0) h ⟨k, ev, hmem', hnone, hbk, hhk⟩
        exact ⟨k', ev', List.mem_cons_of_mem _ hm, hn, hb', hh',
          by rw [gp_cons_basic hnone0 hbk0]; exact hres⟩
      · by_cases hhk0 : ev0.kind = .house
        · obtain ⟨k, ev, hmem, hnone, hbk, hhk⟩ := hoff
          have hmem' : (k, ev) ∈ rest := by
            rcases List.mem_cons.mp hmem with heq | hmem'
            · cases heq; exact absurd hhk0 hhk
            · exact hmem'
          obtain ⟨k', ev', hm, hn, hb', hh', hres⟩ :=
            ih (insertA p k0 ev0) b (insertA h k0 ev0) ⟨k, ev, hmem', hnone, hbk, hhk⟩
          exact ⟨k', ev', List.mem_cons_of_mem _ hm, hn, hb', hh',
            by rw [gp_cons_house hnone0 hhk0]; exact hres⟩
        · refine ⟨k0, ev0, List.mem_cons_self _ _, hnone0, hbk0, hhk0, ?_⟩
          rw [gp_cons_undef hnone0 hbk0 hhk0]

/-- Conversely, the undefined-node error always names an offending child. -/
theorem gp_err_inv (name : String) (inter : SMap) :
    ∀ (cs : List (String × ERef)) (p b h : PMap) (e : String) (p1 b1 h1 : PMap),
      GetPrimaryEvents name inter cs p b h = (some e, p1, b1, h1) →
      ∃ k ev, (k, ev) ∈ cs ∧ lookupA inter k = none ∧
        ev.kind ≠ .basic ∧ ev.kind ≠ .house ∧ e = undefMsg ev.orig name := by
  intro cs
  induction cs with
  | nil =>
    intro p b h e p1 b1 h1 hrun
    simp [GetPrimaryEvents] at hrun
  | cons kv rest ih =>
    obtain ⟨k0, ev0⟩ := kv
    intro p b h e p1 b1 h1 hrun
    by_cases hin : (lookupA inter k0).isSome
    · rw [gp_cons_in hin] at hrun
      obtain ⟨k, ev, hm, hn, hb', hh', he⟩ := ih p b h e p1 b1 h1 hrun
      exact ⟨k, ev, List.mem_cons_of_mem _ hm, hn, hb', hh', he⟩
    · have hnone0 : lookupA inter k0 = none := by
        cases hl : lookupA inter k0
        · rfl
        · rw [hl] at hin; simp at hin
      by_cases hbk0 : ev0.kind = .basic
      · rw [gp_cons_basic hnone0 hbk0] at hrun
        obtain ⟨k, ev, hm, hn, hb', hh', he⟩ := ih _ _ _ e p1 b1 h1 hrun
        exact ⟨k, ev, List.mem_cons_of_mem _ hm, hn, hb', hh', he⟩
      · by_cases hhk0 : ev0.kind = .house
        · rw [gp_cons_house hnone0 hhk0] at hrun
          obtain ⟨k, ev, hm, hn, hb', hh', he⟩ := ih _ _ _ e p1 b1 h1 hrun
          exact ⟨k, ev, List.mem_cons_of_mem _ hm, hn, hb', hh', he⟩
        · rw [gp_cons_undef hnone0 hbk0 hhk0] at hrun
          obtain ⟨he, _⟩ := Prod.mk.injEq .. ▸ hrun
          exact ⟨k0, ev0, List.mem_cons_self _ _, hnone0, hbk0, hhk0,
            by cases hrun; rfl⟩

end FaultTree
end scram

namespace scram
namespace FaultTree

theorem gl_cons_none {name : String} {env : GEnv} {inter : SMap} {gid orig : String}
    {rest : List (String × String)} {p b h : PMap}
    (he : lookupA env gid = none) :
    GatherLoop name env inter ((gid, orig) :: rest) p b h
      = GatherLoop name env inter rest p b h := by
  simp [GatherLoop, he]

theorem gl_cons_some_ok {name : String} {env : GEnv} {inter : SMap} {gid orig : String}
    {rest : List (String × String)} {p b h : PMap} {gd : GateDef} {p1 b1 h1 : PMap}
    (he : lookupA env gid = some gd)
    (hg : GetPrimaryEvents name inter gd.children p b h = (none, p1, b1, h1)) :
    GatherLoop name env inter ((gid, orig) :: rest) p b h
      = GatherLoop name env inter rest p1 b1 h1 := by
  simp [GatherLoop, he, hg]

theorem gl_cons_some_err {name : String} {env : GEnv} {inter : SMap} {gid orig : String}
    {rest : List (String × String)} {p b h : PMap} {gd : GateDef} {e : String}
    {p1 b1 h1 : PMap}
    (he : lookupA env gid = some gd)
    (hg : GetPrimaryEvents name inter gd.children p b h = (some e, p1, b1, h1)) :
    GatherLoop name env inter ((gid, orig) :: rest) p b h = (some e, p1, b1, h1) := by
  simp [GatherLoop, he, hg]

/-- If some gate listed in `inter_events_` has an unregistered non-primary
child, the `GatherPrimaryEvents` loop raises the undefined-node error naming
an offending child. -/
theorem gl_err_of_offender (name : String) (env : GEnv) (inter : SMap) :
    ∀ (gs : List (String × String)) (p b h : PMap),
      (∃ gid orig gd k ev, (gid, orig) ∈ gs ∧ lookupA env gid = some gd ∧
        (k, ev) ∈ gd.children ∧ lookupA inter k = none ∧
        ev.kind ≠ .basic ∧ ev.kind ≠ .house) →
      ∃ gid orig gd k ev, (gid, orig) ∈ gs ∧ lookupA env gid = some gd ∧
        (k, ev) ∈ gd.children ∧ lookupA inter k = none ∧
        ev.kind ≠ .basic ∧ ev.kind ≠ .house ∧
        (GatherLoop name env inter gs p b h).1 = some (undefMsg ev.orig name) := by
  intro gs
  induction gs with
  | nil =>
    rintro p b h ⟨gid, orig, gd, k, ev, hmem, _⟩
    exact absurd hmem (List.not_mem_nil _)
  | cons go rest ih =>
    obtain ⟨gid0, orig0⟩ := go
    intro p b h hoff
    cases he : lookupA env gid0 with
    | none =>
      obtain ⟨gid, orig, gd, k, ev, hmem, henv, hch, hn, hb', hh'⟩ := hoff
      have hmem' : (gid, orig) ∈ rest := by
        rcases List.mem_cons.mp hmem with heq | hmem'
        · cases heq
          rw [he] at henv
          exact absurd henv (by simp)
        · exact hmem'
      obtain ⟨g', o', d', k', e', hm, hv, hc, hn', hb'', hh'', hres⟩ :=
        ih p b h ⟨gid, orig, gd, k, ev, hmem', henv, hch, hn, hb', hh'⟩
      exact ⟨g', o', d', k', e', List.mem_cons_of_mem _ hm, hv, hc, hn', hb'', hh'',
        by rw [gl_cons_none he]; exact hres⟩
    | some gd0 =>
      rcases hr : GetPrimaryEvents name inter gd0.children p b h with ⟨r, p1, b1, h1⟩
      cases r with
      | some e =>
        obtain ⟨k, ev, hm, hn, hb', hh', heq⟩ :=
          gp_err_inv name inter gd0.children p b h e p1 b1 h1 hr
        refine ⟨gid0, orig0, gd0, k, ev, List.mem_cons_self _ _, he, hm, hn, hb', hh', ?_⟩
        rw [gl_cons_some_err he hr, heq]
      | none =>
        obtain ⟨gid, orig, gd, k, ev, hmem, henv, hch, hn, hb', hh'⟩ := hoff
        have hmem' : (gid, orig) ∈ rest := by
          rcases List.mem_cons.mp hmem with heq | hmem'
          · cases heq
            rw [he] at henv
            injection henv with hgd
            subst hgd
            obtain ⟨k', ev', _, _, _, _, hres⟩ :=
              gp_err_of_offender name inter gd0.children p b h ⟨k, ev, hch, hn, hb', hh'⟩
            rw [hr] at hres
            exact absurd hres (by simp)
          · exact hmem'
        obtain ⟨g', o', d', k', e', hm, hv, hc, hn', hb'', hh'', hres⟩ :=
          ih p1 b1 h1 ⟨gid, orig, gd, k, ev, hmem', henv, hch, hn, hb', hh'⟩
        exact ⟨g', o', d', k', e', List.mem_cons_of_mem _ hm, hv, hc, hn', hb'', hh'',
          by rw [gl_cons_some_ok he hr]; exact hres⟩

/-- A child of a reachable gate that does not resolve to a known primary
event: it is a child of the top gate or of a gate listed in `inter_events_`,
its key is not registered as a gate, and its dynamic type is neither basic
nor house. -/
def UndefinedLeaf (env : GEnv) (inter : SMap) (topGd : GateDef)
    (k : String) (ev : ERef) : Prop :=
  ((k, ev) ∈ topGd.children ∨
    ∃ gid orig gd, (gid, orig) ∈ inter ∧ lookupA env gid = some gd ∧
      (k, ev) ∈ gd.children) ∧
  lookupA inter k = none ∧ ev.kind ≠ .basic ∧ ev.kind ≠ .house

/-- C6: after the validation DFS, every child of a reachable gate whose key is
not registered in `inter_events_` must resolve to a primary event; if some such
child is not a primary event, the primary-event gathering step raises
`ValidationError` whose message names an offending event's original identifier
and the fault tree's name. -/
theorem GatherPrimaryEvents_undefined_node (name : String) (env : GEnv) (inter : SMap)
    (topGd : GateDef) (p b h : PMap)
    (hoff : ∃ k ev, UndefinedLeaf env inter topGd k ev) :
    ∃ k ev, UndefinedLeaf env inter topGd k ev ∧
      (GatherPrimaryEvents name env inter topGd p b h).1
        = some (undefMsg ev.orig name) := by
  rcases hr : GetPrimaryEvents name inter topGd.children p b h with ⟨r, p1, b1, h1⟩
  cases r with
  | some e =>
    obtain ⟨k, ev, hm, hn, hb', hh', heq⟩ :=
      gp_err_inv name inter topGd.children p b h e p1 b1 h1 hr
    refine ⟨k, ev, ⟨Or.inl hm, hn, hb', hh'⟩, ?_⟩
    show (GatherPrimaryEvents name env inter topGd p b h).1 = _
    unfold GatherPrimaryEvents
    rw [hr, heq]
  | none =>
    obtain ⟨k, ev, hu⟩ := hoff
    obtain ⟨hloc, hn, hb', hh'⟩ := hu
    have hloop : ∃ gid orig gd k' ev', (gid, orig) ∈ inter ∧ lookupA env gid = some gd ∧
        (k', ev') ∈ gd.children ∧ lookupA inter k' = none ∧
        ev'.kind ≠ .basic ∧ ev'.kind ≠ .house := by
      rcases hloc with htop | hgate
      · obtain ⟨k', ev', _, _, _, _, hres⟩ :=
          gp_err_of_offender name inter topGd.children p b h ⟨k, ev, htop, hn, hb', hh'⟩
        rw [hr] at hres
        exact absurd hres (by simp)
      · obtain ⟨gid, orig, gd, hmem, henv, hch⟩ := hgate
        exact ⟨gid, orig, gd, k, ev, hmem, henv, hch, hn, hb', hh'⟩
    obtain ⟨gid, orig, gd, k', ev', hmem, henv, hch, hn', hb'', hh'', hres⟩ :=
      gl_err_of_offender name env inter inter p1 b1 h1 hloop
    refine ⟨k', ev', ⟨Or.inr ⟨gid, orig, gd, hmem, henv, hch⟩, hn', hb'', hh''⟩, ?_⟩
    show (GatherPrimaryEvents name env inter topGd p b h).1 = _
    unfold GatherPrimaryEvents
    rw [hr]
    exact hres

/-- The dangling-identifier scenario: top gate `T` with registered child gates
`A` and `B`; `A` references the undefined node `X`, `B` the undefined `Y`. -/
def tDef9 : GateDef := ⟨"T", [("a", ⟨"a", "A", .gate⟩), ("b", ⟨"b", "B", .gate⟩)]⟩

/-- Gate `A` of the dangling-identifier scenario. -/
def aDef9 : GateDef := ⟨"A", [("x", ⟨"x", "X", .plain⟩)]⟩

/-- Gate `B` of the dangling-identifier scenario. -/
def bDef9 : GateDef := ⟨"B", [("y", ⟨"y", "Y", .plain⟩)]⟩

/-- Object-graph resolver for the dangling-identifier scenario. -/
def env9 : GEnv := [("t", tDef9), ("a", aDef9), ("b", bDef9)]

/-- Witness for C6: on the concrete tree whose gate `A` references the
undefined node `X`, gathering raises the undefined-node error. -/
theorem GatherPrimaryEvents_undefined_node_witness :
    ∃ k ev, UndefinedLeaf env9 [("a", "A"), ("b", "B")] tDef9 k ev ∧
      (GatherPrimaryEvents "Tree9" env9 [("a", "A"), ("b", "B")] tDef9 [] [] []).1
        = some (undefMsg ev.orig "Tree9") :=
  GatherPrimaryEvents_undefined_node "Tree9" env9 [("a", "A"), ("b", "B")] tDef9 [] [] []
    ⟨"x", ⟨"x", "X", .plain⟩,
      Or.inr ⟨"a", "A", aDef9, by decide, by decide, by decide⟩,
      by decide, by decide, by decide⟩

end FaultTree
end scram

namespace scram
namespace FaultTree

theorem cc_zero {name : String} {env : GEnv} {inter impl : SMap} {job : Job} :
    CheckCyclicity name env 0 inter impl job = (.timeout, inter, impl) := rfl

theorem cc_visit_hit {name : String} {env : GEnv} {fuel : Nat} {inter impl : SMap}
    {gid : String} {gd : GateDef} {path visited : List String}
    (hv : gid ∈ visited) :
    CheckCyclicity name env (fuel + 1) inter impl (.visit gid gd path visited)
      = (.err (cycleMsg name inter gd.orig (dropToFirst gid (path ++ [gid]))),
         inter, impl) := by
  simp only [CheckCyclicity]
  rw [if_pos hv]

theorem cc_visit_go {name : String} {env : GEnv} {fuel : Nat} {inter impl : SMap}
    {gid : String} {gd : GateDef} {path visited : List String}
    (hv : gid ∉ visited) :
    CheckCyclicity name env (fuel + 1) inter impl (.visit gid gd path visited)
      = CheckCyclicity name env fuel inter impl
          (.kids gd.children (path ++ [gid]) (gid :: visited)) := by
  simp only [CheckCyclicity]
  rw [if_neg hv]

theorem cc_kids_nil {name : String} {env : GEnv} {fuel : Nat} {inter impl : SMap}
    {path visited : List String} :
    CheckCyclicity name env (fuel + 1) inter impl (.kids [] path visited)
      = (.ok, inter, impl) := rfl

theorem cc_kids_nongate {name : String} {env : GEnv} {fuel : Nat} {inter impl : SMap}
    {key : String} {ev : ERef} {rest : List (String × ERef)} {path visited : List String}
    (hg : ¬ ev.kind = EKind.gate) :
    CheckCyclicity name env (fuel + 1) inter impl (.kids ((key, ev) :: rest) path visited)
      = CheckCyclicity name env fuel inter impl (.kids rest path visited) := by
  simp only [CheckCyclicity]
  rw [if_neg hg]

theorem cc_kids_envnone {name : String} {env : GEnv} {fuel : Nat} {inter impl : SMap}
    {key : String} {ev : ERef} {rest : List (String × ERef)} {path visited : List String}
    (hg : ev.kind = EKind.gate) (henv : lookupA env ev.id = none) :
    CheckCyclicity name env (fuel + 1) inter impl (.kids ((key, ev) :: rest) path visited)
      = CheckCyclicity name env fuel inter impl (.kids rest path visited) := by
  simp only [CheckCyclicity]
  rw [if_pos hg, henv]

theorem cc_kids_gate_ok {name : String} {env : GEnv} {fuel : Nat} {inter impl : SMap}
    {key : String} {ev : ERef} {rest : List (String × ERef)} {path visited : List String}
    {cgd : GateDef} {i2 m2 : SMap}
    (hg : ev.kind = EKind.gate) (henv : lookupA env ev.id = some cgd)
    (hok : CheckCyclicity name env fuel
        (if (lookupA inter ev.id).isSome then inter else inter ++ [(ev.id, cgd.orig)])
        (if (lookupA inter ev.id).isSome then impl else insertA impl ev.id cgd.orig)
        (.visit ev.id cgd path visited) = (.ok, i2, m2)) :
    CheckCyclicity name env (fuel + 1) inter impl (.kids ((key, ev) :: rest) path visited)
      = CheckCyclicity name env fuel i2 m2 (.kids rest path visited) := by
  simp only [CheckCyclicity]
  rw [if_pos hg, henv]
  dsimp only
  rw [hok]

theorem cc_kids_gate_err {name : String} {env : GEnv} {fuel : Nat} {inter impl : SMap}
    {key : String} {ev : ERef} {rest : List (String × ERef)} {path visited : List String}
    {cgd : GateDef} {e : String} {i2 m2 : SMap}
    (hg : ev.kind = EKind.gate) (henv : lookupA env ev.id = some cgd)
    (herr : CheckCyclicity name env fuel
        (if (lookupA inter ev.id).isSome then inter else inter ++ [(ev.id, cgd.orig)])
        (if (lookupA inter ev.id).isSome then impl else insertA impl ev.id cgd.orig)
        (.visit ev.id cgd path visited) = (.err e, i2, m2)) :
    CheckCyclicity name env (fuel + 1) inter impl (.kids ((key, ev) :: rest) path visited)
      = (.err e, i2, m2) := by
  simp only [CheckCyclicity]
  rw [if_pos hg, henv]
  dsimp only
  rw [herr]

theorem cc_kids_gate_timeout {name : String} {env : GEnv} {fuel : Nat} {inter impl : SMap}
    {key : String} {ev : ERef} {rest : List (String × ERef)} {path visited : List String}
    {cgd : GateDef} {i2 m2 : SMap}
    (hg : ev.kind = EKind.gate) (henv : lookupA env ev.id = some cgd)
    (hto : CheckCyclicity name env fuel
        (if (lookupA inter ev.id).isSome then inter else inter ++ [(ev.id, cgd.orig)])
        (if (lookupA inter ev.id).isSome then impl else insertA impl ev.id cgd.orig)
        (.visit ev.id cgd path visited) = (.timeout, i2, m2)) :
    CheckCyclicity name env (fuel + 1) inter impl (.kids ((key, ev) :: rest) path visited)
      = (.timeout, i2, m2) := by
  simp only [CheckCyclicity]
  rw [if_pos hg, henv]
  dsimp only
  rw [hto]

end FaultTree
end scram

namespace scram

theorem lookupA_append_some {α : Type} {m1 : List (String × α)} (m2 : List (String × α))
    {k : String} {v : α} (h : lookupA m1 k = some v) :
    lookupA (m1 ++ m2) k = some v := by
  induction m1 with
  | nil => simp [lookupA] at h
  | cons kv rest ih =>
    obtain ⟨k0, v0⟩ := kv
    by_cases hk : k0 = k
    · simp only [lookupA, if_pos hk] at h
      simp only [List.cons_append, lookupA, if_pos hk]
      exact h
    · simp only [lookupA, if_neg hk] at h
      simp only [List.cons_append, lookupA, if_neg hk]
      exact ih h

theorem lookupA_append_none {α : Type} {m1 : List (String × α)} (m2 : List (String × α))
    {k : String} (h : lookupA m1 k = none) :
    lookupA (m1 ++ m2) k = lookupA m2 k := by
  induction m1 with
  | nil => rfl
  | cons kv rest ih =>
    obtain ⟨k0, v0⟩ := kv
    by_cases hk : k0 = k
    · simp only [lookupA, if_pos hk] at h
      exact absurd h (by simp)
    · simp only [lookupA, if_neg hk] at h
      simp only [List.cons_append, lookupA, if_neg hk]
      exact ih h

theorem lookup_parallel_append {α : Type} {i1 i2 : List (String × α)}
    (hi : ∀ k, lookupA i1 k = lookupA i2 k) (x : String) (v : α) :
    ∀ k, lookupA (i1 ++ [(x, v)]) k = lookupA (i2 ++ [(x, v)]) k := by
  intro k
  cases h1 : lookupA i1 k with
  | some w =>
    rw [lookupA_append_some _ h1, lookupA_append_some _ (by rw [← hi k]; exact h1)]
  | none =>
    rw [lookupA_append_none _ h1, lookupA_append_none _ (by rw [← hi k]; exact h1)]

theorem insertA_congr {α : Type} {m1 m2 : List (String × α)}
    (hm : ∀ k, lookupA m1 k = lookupA m2 k) (x : String) (v : α) :
    ∀ k, lookupA (insertA m1 x v) k = lookupA (insertA m2 x v) k := by
  intro k
  unfold insertA
  rw [← hm x]
  by_cases hp : (lookupA m1 x).isSome
  · rw [if_pos hp, if_pos hp]
    exact hm k
  · rw [if_neg hp, if_neg hp]
    exact lookup_parallel_append hm x v k

namespace FaultTree

theorem origOf_congr {i1 i2 : SMap} (hi : ∀ k, lookupA i1 k = lookupA i2 k)
    (k : String) : origOf i1 k = origOf i2 k := by
  unfold origOf
  rw [hi k]

theorem arrowChain_congr {i1 i2 : SMap} (hi : ∀ k, lookupA i1 k = lookupA i2 k) :
    ∀ l : List String, arrowChain i1 l = arrowChain i2 l := by
  intro l
  induction l with
  | nil => rfl
  | cons x rest ih =>
    cases rest with
    | nil =>
      show "->" ++ origOf i1 x = "->" ++ origOf i2 x
      rw [origOf_congr hi x]
    | cons y rest2 =>
      show "->" ++ origOf i1 x ++ arrowChain i1 (y :: rest2)
          = "->" ++ origOf i2 x ++ arrowChain i2 (y :: rest2)
      rw [origOf_congr hi x, ih]

theorem cycleMsg_congr (name : String) {i1 i2 : SMap}
    (hi : ∀ k, lookupA i1 k = lookupA i2 k) (porig : String) (cyc : List String) :
    cycleMsg name i1 porig cyc = cycleMsg name i2 porig cyc := by
  unfold cycleMsg
  rw [arrowChain_congr hi cyc]

end FaultTree
end scram

namespace scram
namespace FaultTree

/-- C9 (amended): the cycle-check phase of validation is deterministic in the
strong sense: its diagnostics (and the map content of the updated gate
indexes) depend only on the content of `inter_events_` and `implicit_gates_`,
not on the iteration order of those hash containers, because each gate's
children are traversed in the sorted key order of its `std::map`. The
completeness phase, by contrast, iterates `inter_events_` itself, and its
first-reported diagnostic does depend on that iteration order (see the
order-dependence counterexample). -/
theorem CheckCyclicity_order_independent (name : String) (env : GEnv) :
    ∀ (fuel : Nat) (iA mA iB mB : SMap) (job : Job),
      (∀ k, lookupA iA k = lookupA iB k) → (∀ k, lookupA mA k = lookupA mB k) →
      ((CheckCyclicity name env fuel iA mA job).1
          = (CheckCyclicity name env fuel iB mB job).1 ∧
       (∀ k, lookupA (CheckCyclicity name env fuel iA mA job).2.1 k
          = lookupA (CheckCyclicity name env fuel iB mB job).2.1 k) ∧
       (∀ k, lookupA (CheckCyclicity name env fuel iA mA job).2.2 k
          = lookupA (CheckCyclicity name env fuel iB mB job).2.2 k)) := by
  intro fuel
  induction fuel with
  | zero =>
    intro iA mA iB mB job hi hm
    exact ⟨rfl, hi, hm⟩
  | succ fuel ih =>
    intro iA mA iB mB job hi hm
    cases job with
    | visit gid gd path visited =>
      by_cases hv : gid ∈ visited
      · rw [cc_visit_hit hv, cc_visit_hit hv]
        exact ⟨congrArg VRes.err (cycleMsg_congr name hi gd.orig _), hi, hm⟩
      · rw [cc_visit_go hv, cc_visit_go hv]
        exact ih iA mA iB mB _ hi hm
    | kids cs path visited =>
      cases cs with
      | nil =>
        rw [cc_kids_nil, cc_kids_nil]
        exact ⟨rfl, hi, hm⟩
      | cons kv rest =>
        obtain ⟨key, ev⟩ := kv
        by_cases hg : ev.kind = EKind.gate
        · cases henv : lookupA env ev.id with
          | none =>
            rw [cc_kids_envnone hg henv, cc_kids_envnone hg henv]
            exact ih iA mA iB mB _ hi hm
          | some cgd =>
            have hguard : (lookupA iB ev.id).isSome = (lookupA iA ev.id).isSome := by
              rw [hi ev.id]
            have hi' : ∀ k,
                lookupA (if (lookupA iA ev.id).isSome then iA
                         else iA ++ [(ev.id, cgd.orig)]) k
                = lookupA (if (lookupA iB ev.id).isSome then iB
                           else iB ++ [(ev.id, cgd.orig)]) k := by
              rw [hguard]
              by_cases hp : (lookupA iA ev.id).isSome
              · rw [if_pos hp, if_pos hp]; exact hi
              · rw [if_neg hp, if_neg hp]; exact lookup_parallel_append hi ev.id cgd.orig
            have hm' : ∀ k,
                lookupA (if (lookupA iA ev.id).isSome then mA
                         else insertA mA ev.id cgd.orig) k
                = lookupA (if (lookupA iB ev.id).isSome then mB
                           else insertA mB ev.id cgd.orig) k := by
              rw [hguard]
              by_cases hp : (lookupA iA ev.id).isSome
              · rw [if_pos hp, if_pos hp]; exact hm
              · rw [if_neg hp, if_neg hp]; exact insertA_congr hm ev.id cgd.orig
            obtain ⟨hr, hii, him⟩ := ih
              (if (lookupA iA ev.id).isSome then iA else iA ++ [(ev.id, cgd.orig)])
              (if (lookupA iA ev.id).isSome then mA else insertA mA ev.id cgd.orig)
              (if (lookupA iB ev.id).isSome then iB else iB ++ [(ev.id, cgd.orig)])
              (if (lookupA iB ev.id).isSome then mB else insertA mB ev.id cgd.orig)
              (.visit ev.id cgd path visited) hi' hm'
            rcases hcA : CheckCyclicity name env fuel
                (if (lookupA iA ev.id).isSome then iA else iA ++ [(ev.id, cgd.orig)])
                (if (lookupA iA ev.id).isSome then mA else insertA mA ev.id cgd.orig)
                (.visit ev.id cgd path visited) with ⟨rA, iA2, mA2⟩
            rcases hcB : CheckCyclicity name env fuel
                (if (lookupA iB ev.id).isSome then iB else iB ++ [(ev.id, cgd.orig)])
                (if (lookupA iB ev.id).isSome then mB else insertA mB ev.id cgd.orig)
                (.visit ev.id cgd path visited) with ⟨rB, iB2, mB2⟩
            rw [hcA, hcB] at hr hii him
            simp only at hr hii him
            cases rA with
            | ok =>
              cases rB with
              | ok =>
                rw [cc_kids_gate_ok hg henv hcA, cc_kids_gate_ok hg henv hcB]
                exact ih iA2 mA2 iB2 mB2 _ hii him
              | err e => exact absurd hr (by simp)
              | timeout => exact absurd hr (by simp)
            | err e =>
              cases rB with
              | ok => exact absurd hr (by simp)
              | err e2 =>
                rw [cc_kids_gate_err hg henv hcA, cc_kids_gate_err hg henv hcB]
                exact ⟨hr, hii, him⟩
              | timeout => exact absurd hr (by simp)
            | timeout =>
              cases rB with
              | ok => exact absurd hr (by simp)
              | err e => exact absurd hr (by simp)
              | timeout =>
                rw [cc_kids_gate_timeout hg henv hcA, cc_kids_gate_timeout hg henv hcB]
                exact ⟨rfl, hii, him⟩
        · rw [cc_kids_nongate hg, cc_kids_nongate hg]
          exact ih iA mA iB mB _ hi hm

/-- Witness for the amended C9: the cycle-phase result is identical for two
gate-index representations holding the same bindings in a different order. -/
theorem CheckCyclicity_order_independent_witness :
    (CheckCyclicity "Tree9" env9 20 [("a", "A"), ("b", "B")] []
        (.visit "t" tDef9 [] [])).1
      = (CheckCyclicity "Tree9" env9 20 [("b", "B"), ("a", "A")] []
          (.visit "t" tDef9 [] [])).1 :=
  (CheckCyclicity_order_independent "Tree9" env9 20 [("a", "A"), ("b", "B")] []
    [("b", "B"), ("a", "A")] [] (.visit "t" tDef9 [] [])
    (by
      intro k
      by_cases ha : "a" = k
      · subst ha; decide
      · by_cases hb : "b" = k
        · subst hb; decide
        · simp [lookupA, ha, hb])
    (fun _ => rfl)).1

/-- Counterexample to C9 as stated: two runs of full validation on the same
map content of `inter_events_` (the same bindings, permuted as a hash
container may) report different diagnostics: the completeness loop iterates
the container, so the first undefined-node error found differs. -/
theorem Validate_order_dependent :
    List.Perm [(("a" : String), ("A" : String)), ("b", "B")] [("b", "B"), ("a", "A")] ∧
    (Validate env9 20 tDef9 ⟨"Tree9", "t", "T", [("a", "A"), ("b", "B")], [], [], [], []⟩).map
        (fun r => r.1)
      = some (some "Node with id 'X' was not defined in 'Tree9' tree") ∧
    (Validate env9 20 tDef9 ⟨"Tree9", "t", "T", [("b", "B"), ("a", "A")], [], [], [], []⟩).map
        (fun r => r.1)
      = some (some "Node with id 'Y' was not defined in 'Tree9' tree") ∧
    ("Node with id 'X' was not defined in 'Tree9' tree"
      ≠ "Node with id 'Y' was not defined in 'Tree9' tree") := by
  refine ⟨by decide, by decide, by decide, by decide⟩

end FaultTree
end scram

namespace scram

/-- Binding preservation between association-list maps: every binding of `a`
is a binding of `b` (with the same value). Since `insert` never overwrites,
all container states reached by validation grow along this order. -/
def SubM {α : Type} (a b : List (String × α)) : Prop :=
  ∀ k v, lookupA a k = some v → lookupA b k = some v

theorem SubM.refl {α : Type} (a : List (String × α)) : SubM a a :=
  fun _ _ h => h

theorem SubM.trans {α : Type} {a b c : List (String × α)}
    (h1 : SubM a b) (h2 : SubM b c) : SubM a c :=
  fun k v h => h2 k v (h1 k v h)

theorem SubM.append {α : Type} (a l : List (String × α)) : SubM a (a ++ l) :=
  fun _ _ h => lookupA_append_some l h

theorem SubM.insert_right {α : Type} (m : List (String × α)) (k : String) (v : α) :
    SubM m (insertA m k v) := by
  unfold insertA
  by_cases hp : (lookupA m k).isSome
  · rw [if_pos hp]; exact SubM.refl m
  · rw [if_neg hp]; exact SubM.append m _

theorem SubM.isSome {α : Type} {a b : List (String × α)} (h : SubM a b)
    {k : String} (hk : (lookupA a k).isSome) : (lookupA b k).isSome := by
  obtain ⟨v, hv⟩ := Option.isSome_iff_exists.mp hk
  rw [h k v hv]
  rfl

theorem insertA_self_isSome {α : Type} (m : List (String × α)) (k : String) (v : α) :
    (lookupA (insertA m k v) k).isSome := by
  unfold insertA
  by_cases hp : (lookupA m k).isSome
  · rw [if_pos hp]; exact hp
  · rw [if_neg hp]
    rw [lookupA_append_none _ (Option.not_isSome_iff_eq_none.mp hp)]
    simp [lookupA]

theorem insertA_of_isSome {α : Type} {m : List (String × α)} {k : String} (v : α)
    (hp : (lookupA m k).isSome) : insertA m k v = m := by
  unfold insertA
  rw [if_pos hp]

theorem append_self_isSome {α : Type} (m : List (String × α)) (k : String) (v : α) :
    (lookupA (m ++ [(k, v)]) k).isSome := by
  cases hl : lookupA m k with
  | some w => rw [lookupA_append_some _ hl]; rfl
  | none => rw [lookupA_append_none _ hl]; simp [lookupA]

namespace FaultTree

/-- The post-insertion gate index always contains the just-processed gate
child. -/
theorem if_insert_isSome (inter : SMap) (eid og : String) :
    (lookupA (if (lookupA inter eid).isSome then inter
              else inter ++ [(eid, og)]) eid).isSome := by
  by_cases hp : (lookupA inter eid).isSome
  · rw [if_pos hp]; exact hp
  · rw [if_neg hp]; exact append_self_isSome inter eid og

theorem if_insert_subM (inter : SMap) (eid og : String) :
    SubM inter (if (lookupA inter eid).isSome then inter
                else inter ++ [(eid, og)]) := by
  by_cases hp : (lookupA inter eid).isSome
  · rw [if_pos hp]; exact SubM.refl inter
  · rw [if_neg hp]; exact SubM.append inter _

theorem if_insertA_subM (impl : SMap) (cond : Prop) [Decidable cond]
    (eid og : String) :
    SubM impl (if cond then impl else insertA impl eid og) := by
  by_cases hp : cond
  · rw [if_pos hp]; exact SubM.refl impl
  · rw [if_neg hp]; exact SubM.insert_right impl eid og

/-- `CheckCyclicity` only grows the two gate indexes and never overwrites a
binding. -/
theorem cc_mono (name : String) (env : GEnv) :
    ∀ (fuel : Nat) (inter impl : SMap) (job : Job) (r : VRes) (i2 m2 : SMap),
      CheckCyclicity name env fuel inter impl job = (r, i2, m2) →
      SubM inter i2 ∧ SubM impl m2 := by
  intro fuel
  induction fuel with
  | zero =>
    intro inter impl job r i2 m2 h
    rw [cc_zero] at h
    cases h
    exact ⟨SubM.refl _, SubM.refl _⟩
  | succ fuel ih =>
    intro inter impl job r i2 m2 h
    cases job with
    | visit gid gd path visited =>
      by_cases hv : gid ∈ visited
      · rw [cc_visit_hit hv] at h
        cases h
        exact ⟨SubM.refl _, SubM.refl _⟩
      · rw [cc_visit_go hv] at h
        exact ih _ _ _ _ _ _ h
    | kids cs path visited =>
      cases cs with
      | nil =>
        rw [cc_kids_nil] at h
        cases h
        exact ⟨SubM.refl _, SubM.refl _⟩
      | cons kv rest =>
        obtain ⟨key, ev⟩ := kv
        by_cases hg : ev.kind = EKind.gate
        · cases henv : lookupA env ev.id with
          | none =>
            rw [cc_kids_envnone hg henv] at h
            exact ih _ _ _ _ _ _ h
          | some cgd =>
            rcases hc : CheckCyclicity name env fuel
                (if (lookupA inter ev.id).isSome then inter else inter ++ [(ev.id, cgd.orig)])
                (if (lookupA inter ev.id).isSome then impl else insertA impl ev.id cgd.orig)
                (.visit ev.id cgd path visited) with ⟨rc, ic, mc⟩
            obtain ⟨s1, s2⟩ := ih _ _ _ _ _ _ hc
            have hstep1 : SubM inter ic :=
              SubM.trans (if_insert_subM inter ev.id cgd.orig) s1
            have hstep2 : SubM impl mc :=
              SubM.trans (if_insertA_subM impl _ ev.id cgd.orig) s2
            cases rc with
            | ok =>
              rw [cc_kids_gate_ok hg henv hc] at h
              obtain ⟨t1, t2⟩ := ih _ _ _ _ _ _ h
              exact ⟨SubM.trans hstep1 t1, SubM.trans hstep2 t2⟩
            | err e =>
              rw [cc_kids_gate_err hg henv hc] at h
              cases h
              exact ⟨hstep1, hstep2⟩
            | timeout =>
              rw [cc_kids_gate_timeout hg henv hc] at h
              cases h
              exact ⟨hstep1, hstep2⟩
        · rw [cc_kids_nongate hg] at h
          exact ih _ _ _ _ _ _ h

end FaultTree
end scram

namespace scram
namespace FaultTree

/-- A successful `CheckCyclicity` run is absorbed by any state already
containing its final gate index: re-running from such a state changes nothing
and still succeeds. -/
theorem cc_stable_ok (name : String) (env : GEnv) :
    ∀ (fuel : Nat) (inter impl : SMap) (job : Job) (i2 m2 : SMap),
      CheckCyclicity name env fuel inter impl job = (.ok, i2, m2) →
      ∀ jB nB : SMap, SubM i2 jB →
      CheckCyclicity name env fuel jB nB job = (.ok, jB, nB) := by
  intro fuel
  induction fuel with
  | zero =>
    intro inter impl job i2 m2 h
    rw [cc_zero] at h
    simp at h
  | succ fuel ih =>
    intro inter impl job i2 m2 h jB nB hsub
    cases job with
    | visit gid gd path visited =>
      by_cases hv : gid ∈ visited
      · rw [cc_visit_hit hv] at h
        simp at h
      · rw [cc_visit_go hv] at h
        rw [cc_visit_go hv]
        exact ih _ _ _ _ _ h jB nB hsub
    | kids cs path visited =>
      cases cs with
      | nil =>
        rw [cc_kids_nil] at h
        cases h
        rw [cc_kids_nil]
      | cons kv rest =>
        obtain ⟨key, ev⟩ := kv
        by_cases hg : ev.kind = EKind.gate
        · cases henv : lookupA env ev.id with
          | none =>
            rw [cc_kids_envnone hg henv] at h
            rw [cc_kids_envnone hg henv]
            exact ih _ _ _ _ _ h jB nB hsub
          | some cgd =>
            rcases hc : CheckCyclicity name env fuel
                (if (lookupA inter ev.id).isSome then inter else inter ++ [(ev.id, cgd.orig)])
                (if (lookupA inter ev.id).isSome then impl else insertA impl ev.id cgd.orig)
                (.visit ev.id cgd path visited) with ⟨rc, ic, mc⟩
            cases rc with
            | ok =>
              rw [cc_kids_gate_ok hg henv hc] at h
              obtain ⟨hrm1, _⟩ := cc_mono name env fuel _ _ _ _ _ _ h
              have hsubc : SubM ic jB := SubM.trans hrm1 hsub
              have hjSome : (lookupA jB ev.id).isSome := by
                obtain ⟨s1, _⟩ := cc_mono name env fuel _ _ _ _ _ _ hc
                exact SubM.isSome hsubc
                  (SubM.isSome s1 (if_insert_isSome inter ev.id cgd.orig))
              have hchild : CheckCyclicity name env fuel jB nB
                  (.visit ev.id cgd path visited) = (.ok, jB, nB) :=
                ih _ _ _ _ _ hc jB nB hsubc
              rw [cc_kids_gate_ok hg henv
                (by rw [if_pos hjSome, if_pos hjSome]; exact hchild)]
              exact ih _ _ _ _ _ h jB nB hsub
            | err e =>
              rw [cc_kids_gate_err hg henv hc] at h
              simp at h
            | timeout =>
              rw [cc_kids_gate_timeout hg henv hc] at h
              simp at h
        · rw [cc_kids_nongate hg] at h
          rw [cc_kids_nongate hg]
          exact ih _ _ _ _ _ h jB nB hsub

/-- A failed `CheckCyclicity` run raises the same diagnostic and reaches the
same state when re-run from the state it left behind. -/
theorem cc_stable_err (name : String) (env : GEnv) :
    ∀ (fuel : Nat) (inter impl : SMap) (job : Job) (e : String) (i2 m2 : SMap),
      CheckCyclicity name env fuel inter impl job = (.err e, i2, m2) →
      CheckCyclicity name env fuel i2 m2 job = (.err e, i2, m2) := by
  intro fuel
  induction fuel with
  | zero =>
    intro inter impl job e i2 m2 h
    rw [cc_zero] at h
    simp at h
  | succ fuel ih =>
    intro inter impl job e i2 m2 h
    cases job with
    | visit gid gd path visited =>
      by_cases hv : gid ∈ visited
      · rw [cc_visit_hit hv] at h
        cases h
        rw [cc_visit_hit hv]
      · rw [cc_visit_go hv] at h
        rw [cc_visit_go hv]
        exact ih _ _ _ _ _ _ h
    | kids cs path visited =>
      cases cs with
      | nil =>
        rw [cc_kids_nil] at h
        simp at h
      | cons kv rest =>
        obtain ⟨key, ev⟩ := kv
        by_cases hg : ev.kind = EKind.gate
        · cases henv : lookupA env ev.id with
          | none =>
            rw [cc_kids_envnone hg henv] at h
            rw [cc_kids_envnone hg henv]
            exact ih _ _ _ _ _ _ h
          | some cgd =>
            rcases hc : CheckCyclicity name env fuel
                (if (lookupA inter ev.id).isSome then inter else inter ++ [(ev.id, cgd.orig)])
                (if (lookupA inter ev.id).isSome then impl else insertA impl ev.id cgd.orig)
                (.visit ev.id cgd path visited) with ⟨rc, ic, mc⟩
            obtain ⟨s1, s2⟩ := cc_mono name env fuel _ _ _ _ _ _ hc
            cases rc with
            | ok =>
              rw [cc_kids_gate_ok hg henv hc] at h
              obtain ⟨t1, _⟩ := cc_mono name env fuel _ _ _ _ _ _ h
              have hsubc : SubM ic i2 := t1
              have hjSome : (lookupA i2 ev.id).isSome :=
                SubM.isSome hsubc
                  (SubM.isSome s1 (if_insert_isSome inter ev.id cgd.orig))
              have hchild : CheckCyclicity name env fuel i2 m2
                  (.visit ev.id cgd path visited) = (.ok, i2, m2) :=
                cc_stable_ok name env fuel _ _ _ _ _ hc i2 m2 hsubc
              rw [cc_kids_gate_ok hg henv
                (by rw [if_pos hjSome, if_pos hjSome]; exact hchild)]
              exact ih _ _ _ _ _ _ h
            | err e2 =>
              rw [cc_kids_gate_err hg henv hc] at h
              injection h with h1 h2
              injection h2 with hi hm
              injection h1 with he
              subst hi
              subst hm
              subst he
              have hjSome : (lookupA ic ev.id).isSome :=
                SubM.isSome s1 (if_insert_isSome inter ev.id cgd.orig)
              have hchild : CheckCyclicity name env fuel ic mc
                  (.visit ev.id cgd path visited) = (.err e2, ic, mc) :=
                ih _ _ _ _ _ _ hc
              exact cc_kids_gate_err hg henv
                (by rw [if_pos hjSome, if_pos hjSome]; exact hchild)
            | timeout =>
              rw [cc_kids_gate_timeout hg henv hc] at h
              simp at h
        · rw [cc_kids_nongate hg] at h
          rw [cc_kids_nongate hg]
          exact ih _ _ _ _ _ _ h

end FaultTree
end scram

namespace scram
namespace FaultTree

/-- `GetPrimaryEvents` only grows its three accumulators. -/
theorem gp_mono (name : String) (inter : SMap) :
    ∀ (cs : List (String × ERef)) (p b h : PMap) (r : Option String) (p1 b1 h1 : PMap),
      GetPrimaryEvents name inter cs p b h = (r, p1, b1, h1) →
      SubM p p1 ∧ SubM b b1 ∧ SubM h h1 := by
  intro cs
  induction cs with
  | nil =>
    intro p b h r p1 b1 h1 hrun
    cases hrun
    exact ⟨SubM.refl _, SubM.refl _, SubM.refl _⟩
  | cons kv rest ih =>
    obtain ⟨k0, ev0⟩ := kv
    intro p b h r p1 b1 h1 hrun
    by_cases hin : (lookupA inter k0).isSome
    · rw [gp_cons_in hin] at hrun
      exact ih _ _ _ _ _ _ _ hrun
    · have hnone0 : lookupA inter k0 = none := Option.not_isSome_iff_eq_none.mp hin
      by_cases hbk0 : ev0.kind = .basic
      · rw [gp_cons_basic hnone0 hbk0] at hrun
        obtain ⟨t1, t2, t3⟩ := ih _ _ _ _ _ _ _ hrun
        exact ⟨SubM.trans (SubM.insert_right p k0 ev0) t1,
               SubM.trans (SubM.insert_right b k0 ev0) t2, t3⟩
      · by_cases hhk0 : ev0.kind = .house
        · rw [gp_cons_house hnone0 hhk0] at hrun
          obtain ⟨t1, t2, t3⟩ := ih _ _ _ _ _ _ _ hrun
          exact ⟨SubM.trans (SubM.insert_right p k0 ev0) t1, t2,
                 SubM.trans (SubM.insert_right h k0 ev0) t3⟩
        · rw [gp_cons_undef hnone0 hbk0 hhk0] at hrun
          cases hrun
          exact ⟨SubM.refl _, SubM.refl _, SubM.refl _⟩

/-- Re-running `GetPrimaryEvents` with specialized indexes that already absorb
the first run's insertions yields the same diagnostic and the same
`primary_events_`, and leaves the absorbed indexes unchanged. -/
theorem gp_stable (name : String) (inter : SMap) :
    ∀ (cs : List (String × ERef)) (p b h : PMap) (r : Option String) (p1 b1 h1 : PMap),
      GetPrimaryEvents name inter cs p b h = (r, p1, b1, h1) →
      ∀ B H : PMap, SubM b1 B → SubM h1 H →
      GetPrimaryEvents name inter cs p B H = (r, p1, B, H) := by
  intro cs
  induction cs with
  | nil =>
    intro p b h r p1 b1 h1 hrun B H hB hH
    cases hrun
    rfl
  | cons kv rest ih =>
    obtain ⟨k0, ev0⟩ := kv
    intro p b h r p1 b1 h1 hrun B H hB hH
    by_cases hin : (lookupA inter k0).isSome
    · rw [gp_cons_in hin] at hrun
      rw [gp_cons_in hin]
      exact ih _ _ _ _ _ _ _ hrun B H hB hH
    · have hnone0 : lookupA inter k0 = none := Option.not_isSome_iff_eq_none.mp hin
      by_cases hbk0 : ev0.kind = .basic
      · rw [gp_cons_basic hnone0 hbk0] at hrun
        obtain ⟨_, t2, _⟩ := gp_mono name inter _ _ _ _ _ _ _ _ hrun
        have hBk : (lookupA B k0).isSome :=
          SubM.isSome hB (SubM.isSome t2 (insertA_self_isSome b k0 ev0))
        rw [gp_cons_basic hnone0 hbk0, insertA_of_isSome ev0 hBk]
        exact ih _ _ _ _ _ _ _ hrun B H hB hH
      · by_cases hhk0 : ev0.kind = .house
        · rw [gp_cons_house hnone0 hhk0] at hrun
          obtain ⟨_, _, t3⟩ := gp_mono name inter _ _ _ _ _ _ _ _ hrun
          have hHk : (lookupA H k0).isSome :=
            SubM.isSome hH (SubM.isSome t3 (insertA_self_isSome h k0 ev0))
          rw [gp_cons_house hnone0 hhk0, insertA_of_isSome ev0 hHk]
          exact ih _ _ _ _ _ _ _ hrun B H hB hH
        · rw [gp_cons_undef hnone0 hbk0 hhk0] at hrun
          cases hrun
          rw [gp_cons_undef hnone0 hbk0 hhk0]

/-- The `GatherLoop` only grows its accumulators. -/
theorem gl_mono (name : String) (env : GEnv) (inter : SMap) :
    ∀ (gs : List (String × String)) (p b h : PMap) (r : Option String) (p1 b1 h1 : PMap),
      GatherLoop name env inter gs p b h = (r, p1, b1, h1) →
      SubM p p1 ∧ SubM b b1 ∧ SubM h h1 := by
  intro gs
  induction gs with
  | nil =>
    intro p b h r p1 b1 h1 hrun
    cases hrun
    exact ⟨SubM.refl _, SubM.refl _, SubM.refl _⟩
  | cons go rest ih =>
    obtain ⟨gid0, orig0⟩ := go
    intro p b h r p1 b1 h1 hrun
    cases he : lookupA env gid0 with
    | none =>
      rw [gl_cons_none he] at hrun
      exact ih _ _ _ _ _ _ _ hrun
    | some gd0 =>
      rcases hr : GetPrimaryEvents name inter gd0.children p b h with ⟨rg, p2, b2, h2⟩
      obtain ⟨s1, s2, s3⟩ := gp_mono name inter _ _ _ _ _ _ _ _ hr
      cases rg with
      | none =>
        rw [gl_cons_some_ok he hr] at hrun
        obtain ⟨t1, t2, t3⟩ := ih _ _ _ _ _ _ _ hrun
        exact ⟨SubM.trans s1 t1, SubM.trans s2 t2, SubM.trans s3 t3⟩
      | some e =>
        rw [gl_cons_some_err he hr] at hrun
        cases hrun
        exact ⟨s1, s2, s3⟩

/-- Re-running the `GatherLoop` with absorbed specialized indexes yields the
same diagnostic and `primary_events_` and leaves the indexes unchanged. -/
theorem gl_stable (name : String) (env : GEnv) (inter : SMap) :
    ∀ (gs : List (String × String)) (p b h : PMap) (r : Option String) (p1 b1 h1 : PMap),
      GatherLoop name env inter gs p b h = (r, p1, b1, h1) →
      ∀ B H : PMap, SubM b1 B → SubM h1 H →
      GatherLoop name env inter gs p B H = (r, p1, B, H) := by
  intro gs
  induction gs with
  | nil =>
    intro p b h r p1 b1 h1 hrun B H hB hH
    cases hrun
    rfl
  | cons go rest ih =>
    obtain ⟨gid0, orig0⟩ := go
    intro p b h r p1 b1 h1 hrun B H hB hH
    cases he : lookupA env gid0 with
    | none =>
      rw [gl_cons_none he] at hrun
      rw [gl_cons_none he]
      exact ih _ _ _ _ _ _ _ hrun B H hB hH
    | some gd0 =>
      rcases hr : GetPrimaryEvents name inter gd0.children p b h with ⟨rg, p2, b2, h2⟩
      cases rg with
      | none =>
        rw [gl_cons_some_ok he hr] at hrun
        obtain ⟨_, t2, t3⟩ := gl_mono name env inter _ _ _ _ _ _ _ _ hrun
        have hstep := gp_stable name inter gd0.children p b h none p2 b2 h2 hr B H
          (SubM.trans t2 hB) (SubM.trans t3 hH)
        rw [gl_cons_some_ok he hstep]
        exact ih _ _ _ _ _ _ _ hrun B H hB hH
      | some e =>
        rw [gl_cons_some_err he hr] at hrun
        cases hrun
        have hstep := gp_stable name inter gd0.children p b h (some e) p1 b1 h1 hr B H hB hH
        rw [gl_cons_some_err he hstep]

/-- Re-running `GatherPrimaryEvents` (top gate, then the loop) with absorbed
specialized indexes is a no-op on diagnostics and state. -/
theorem gather_stable (name : String) (env : GEnv) (inter : SMap) (topGd : GateDef) :
    ∀ (p b h : PMap) (r : Option String) (p1 b1 h1 : PMap),
      GatherPrimaryEvents name env inter topGd p b h = (r, p1, b1, h1) →
      ∀ B H : PMap, SubM b1 B → SubM h1 H →
      GatherPrimaryEvents name env inter topGd p B H = (r, p1, B, H) := by
  intro p b h r p1 b1 h1 hrun B H hB hH
  rcases hr : GetPrimaryEvents name inter topGd.children p b h with ⟨rg, p2, b2, h2⟩
  cases rg with
  | none =>
    unfold GatherPrimaryEvents at hrun
    rw [hr] at hrun
    dsimp only at hrun
    obtain ⟨_, t2, t3⟩ := gl_mono name env inter _ _ _ _ _ _ _ _ hrun
    have hstep := gp_stable name inter topGd.children p b h none p2 b2 h2 hr B H
      (SubM.trans t2 hB) (SubM.trans t3 hH)
    unfold GatherPrimaryEvents
    rw [hstep]
    dsimp only
    exact gl_stable name env inter inter _ _ _ _ _ _ _ hrun B H hB hH
  | some e =>
    unfold GatherPrimaryEvents at hrun
    rw [hr] at hrun
    dsimp only at hrun
    cases hrun
    have hstep := gp_stable name inter topGd.children p b h (some e) p1 b1 h1 hr B H hB hH
    unfold GatherPrimaryEvents
    rw [hstep]

end FaultTree
end scram

namespace scram
namespace FaultTree

/-- C8: sealing is idempotent. If `Validate` terminates (no fuel exhaustion)
on a built fault tree with diagnostics `d` and post-state `s1` — whether the
run succeeded or threw — then running `Validate` again on `s1` produces
exactly the same diagnostics `d` and leaves every index of the tree in the
state `s1`. -/
theorem Validate_idempotent (env : GEnv) (fuel : Nat) (topGd : GateDef) (s : FT)
    (d : Option String) (s1 : FT)
    (h : Validate env fuel topGd s = some (d, s1)) :
    Validate env fuel topGd s1 = some (d, s1) := by
  rcases hc : CheckCyclicity s.name env fuel s.inter_events s.implicit_gates
      (.visit s.top_event_id topGd [] []) with ⟨r, i, m⟩
  unfold Validate at h
  rw [hc] at h
  cases r with
  | timeout => simp at h
  | err e =>
    dsimp only at h
    injection h with h1
    injection h1 with hd hs
    subst hd
    subst hs
    have hcc2 : CheckCyclicity s.name env fuel i m
        (.visit s.top_event_id topGd [] []) = (.err e, i, m) :=
      cc_stable_err s.name env fuel _ _ _ e i m hc
    unfold Validate
    dsimp only
    rw [hcc2]
  | ok =>
    dsimp only at h
    rcases hg : GatherPrimaryEvents s.name env i topGd [] s.basic_events s.house_events
      with ⟨rg, p, b, hh⟩
    rw [hg] at h
    have hcc2 : CheckCyclicity s.name env fuel i m
        (.visit s.top_event_id topGd [] []) = (.ok, i, m) :=
      cc_stable_ok s.name env fuel _ _ _ i m hc i m (SubM.refl i)
    have hg2 : GatherPrimaryEvents s.name env i topGd [] b hh = (rg, p, b, hh) :=
      gather_stable s.name env i topGd [] s.basic_events s.house_events rg p b hh hg
        b hh (SubM.refl b) (SubM.refl hh)
    cases rg with
    | some e =>
      dsimp only at h
      injection h with h1
      injection h1 with hd hs
      subst hd
      subst hs
      unfold Validate
      dsimp only
      rw [hcc2]
      dsimp only
      rw [hg2]
    | none =>
      dsimp only at h
      injection h with h1
      injection h1 with hd hs
      subst hd
      subst hs
      unfold Validate
      dsimp only
      rw [hcc2]
      dsimp only
      rw [hg2]

/-- Witness for C8: a second validation of the already-validated two-gate tree
(`G1` top with registered child gate `G2`, whose child is a basic event)
returns the same (empty) diagnostics and the same state. -/
theorem Validate_idempotent_witness :
    Validate [("g1", ⟨"G1", [("g2", ⟨"g2", "G2", .gate⟩)]⟩),
              ("g2", ⟨"G2", [("e1", ⟨"e1", "E1", .basic⟩)]⟩)] 10
        ⟨"G1", [("g2", ⟨"g2", "G2", .gate⟩)]⟩
        ⟨"T", "g1", "G1", [("g2", "G2")], [], [("e1", ⟨"e1", "E1", .basic⟩)],
         [("e1", ⟨"e1", "E1", .basic⟩)], []⟩
      = some (none,
        ⟨"T", "g1", "G1", [("g2", "G2")], [], [("e1", ⟨"e1", "E1", .basic⟩)],
         [("e1", ⟨"e1", "E1", .basic⟩)], []⟩) :=
  Validate_idempotent [("g1", ⟨"G1", [("g2", ⟨"g2", "G2", .gate⟩)]⟩),
      ("g2", ⟨"G2", [("e1", ⟨"e1", "E1", .basic⟩)]⟩)] 10
    ⟨"G1", [("g2", ⟨"g2", "G2", .gate⟩)]⟩
    ⟨"T", "g1", "G1", [("g2", "G2")], [], [], [], []⟩
    none
    ⟨"T", "g1", "G1", [("g2", "G2")], [], [("e1", ⟨"e1", "E1", .basic⟩)],
     [("e1", ⟨"e1", "E1", .basic⟩)], []⟩
    (by decide)

end FaultTree
end scram

namespace scram

/-- A key bound in `b` but not in `a`: freshly inserted between the two
states. -/
def FreshIn {α : Type} (a b : List (String × α)) (k : String) : Prop :=
  lookupA a k = none ∧ (lookupA b k).isSome

theorem FreshIn_irrefl {α : Type} {a : List (String × α)} {k : String}
    (h : FreshIn a a k) : False := by
  obtain ⟨h1, h2⟩ := h
  rw [h1] at h2
  exact absurd h2 (by simp)

theorem SubM.none {α : Type} {a b : List (String × α)} (h : SubM a b)
    {k : String} (hk : lookupA b k = none) : lookupA a k = none := by
  cases hl : lookupA a k with
  | none => rfl
  | some v => rw [h k v hl] at hk; exact absurd hk (by simp)

theorem FreshIn_compose {α : Type} {a b c : List (String × α)}
    (hab : SubM a b) (hbc : SubM b c) (k : String) :
    FreshIn a c k ↔ FreshIn a b k ∨ FreshIn b c k := by
  constructor
  · rintro ⟨ha, hc⟩
    cases hb : lookupA b k with
    | some v => exact Or.inl ⟨ha, by rw [hb]; rfl⟩
    | none => exact Or.inr ⟨hb, hc⟩
  · rintro (⟨ha, hb⟩ | ⟨hb, hc⟩)
    · exact ⟨ha, SubM.isSome hbc hb⟩
    · exact ⟨SubM.none hab hb, hc⟩

theorem append_lookup_self_of_none {α : Type} {m : List (String × α)} {x : String}
    (v : α) (hnone : lookupA m x = none) :
    lookupA (m ++ [(x, v)]) x = some v := by
  rw [lookupA_append_none _ hnone]
  simp [lookupA]

theorem insertA_of_none {α : Type} {m : List (String × α)} {x : String} (v : α)
    (hnone : lookupA m x = none) : insertA m x v = m ++ [(x, v)] := by
  unfold insertA
  rw [if_neg (by rw [hnone]; simp)]

theorem lookupA_single_of_ne {α : Type} {x k : String} (v : α) (hne : ¬ x = k) :
    lookupA [(x, v)] k = none := by
  simp [lookupA, hne]

theorem append_isSome_iff {α : Type} {m : List (String × α)} {x : String} (v : α) :
    ∀ k, (lookupA (m ++ [(x, v)]) k).isSome ↔ ((lookupA m k).isSome ∨ k = x) := by
  intro k
  cases hl : lookupA m k with
  | some w =>
    rw [lookupA_append_some _ hl]
    simp
  | none =>
    rw [lookupA_append_none _ hl]
    by_cases hx : x = k
    · subst hx
      simp [lookupA]
    · rw [lookupA_single_of_ne v hx]
      simp [hl]
      exact fun hk => hx hk.symm

theorem FreshIn_append_iff {α : Type} {m : List (String × α)} {x : String} (v : α)
    (hnone : lookupA m x = none) :
    ∀ k, FreshIn m (m ++ [(x, v)]) k ↔ k = x := by
  intro k
  unfold FreshIn
  constructor
  · rintro ⟨h1, h2⟩
    rcases (append_isSome_iff v k).mp h2 with hs | hx
    · rw [h1] at hs; exact absurd hs (by simp)
    · exact hx
  · rintro rfl
    exact ⟨hnone, by rw [append_lookup_self_of_none v hnone]; rfl⟩

namespace FaultTree

/-- Reachability from a gate through a nonempty chain of resolvable gate-typed
children in the object graph. -/
inductive GateReach (env : GEnv) : String → String → Prop where
  | child {a : String} {gd : GateDef} {key : String} {ev : ERef} {cgd : GateDef} :
      lookupA env a = some gd → (key, ev) ∈ gd.children → ev.kind = EKind.gate →
      lookupA env ev.id = some cgd → GateReach env a ev.id
  | step {a c : String} {gd : GateDef} {key : String} {ev : ERef} {cgd : GateDef} :
      lookupA env a = some gd → (key, ev) ∈ gd.children → ev.kind = EKind.gate →
      lookupA env ev.id = some cgd → GateReach env ev.id c → GateReach env a c

theorem GateReach_env_some {env : GEnv} {a c : String} (h : GateReach env a c) :
    ∃ g, lookupA env a = some g := by
  cases h with
  | child ha _ _ _ => exact ⟨_, ha⟩
  | step ha _ _ _ _ => exact ⟨_, ha⟩

end FaultTree
end scram

namespace scram
namespace FaultTree

/-- Every binding freshly added to `implicit_gates_` during a `CheckCyclicity`
run is keyed by a gate-typed child reachable from the job, was absent from
both indexes, resolves in the object graph, and is added to both indexes with
the gate's original identifier as its value. -/
theorem cc_changes (name : String) (env : GEnv) :
    ∀ (fuel : Nat) (inter impl : SMap) (job : Job) (r : VRes) (i2 m2 : SMap),
      CheckCyclicity name env fuel inter impl job = (r, i2, m2) →
      ∀ k, FreshIn impl m2 k →
        lookupA inter k = none ∧
        ∃ cgd, lookupA env k = some cgd ∧ lookupA m2 k = some cgd.orig ∧
          lookupA i2 k = some cgd.orig ∧
          (match job with
           | .visit gid gd _ _ => lookupA env gid = some gd → GateReach env gid k
           | .kids cs _ _ => ∃ key ev, (key, ev) ∈ cs ∧ ev.kind = EKind.gate ∧
               (k = ev.id ∨ GateReach env ev.id k)) := by
  intro fuel
  induction fuel with
  | zero =>
    intro inter impl job r i2 m2 h k hf
    rw [cc_zero] at h
    cases h
    exact absurd hf FreshIn_irrefl
  | succ fuel ih =>
    intro inter impl job r i2 m2 h k hf
    cases job with
    | visit gid gd path visited =>
      by_cases hv : gid ∈ visited
      · rw [cc_visit_hit hv] at h
        cases h
        exact absurd hf FreshIn_irrefl
      · rw [cc_visit_go hv] at h
        obtain ⟨hn, cgd, hcgd, hm2, hi2, key, ev, hmem, hgate, hor⟩ :=
          ih _ _ _ _ _ _ h k hf
        refine ⟨hn, cgd, hcgd, hm2, hi2, ?_⟩
        intro hgd
        rcases hor with rfl | hreach
        · exact GateReach.child hgd hmem hgate hcgd
        · obtain ⟨g, hg⟩ := GateReach_env_some hreach
          exact GateReach.step hgd hmem hgate hg hreach
    | kids cs path visited =>
      cases cs with
      | nil =>
        rw [cc_kids_nil] at h
        cases h
        exact absurd hf FreshIn_irrefl
      | cons kv rest =>
        obtain ⟨key0, ev0⟩ := kv
        by_cases hg : ev0.kind = EKind.gate
        · cases henv : lookupA env ev0.id with
          | none =>
            rw [cc_kids_envnone hg henv] at h
            obtain ⟨hn, cgd, hcgd, hm2, hi2, key, ev, hmem, hgate, hor⟩ :=
              ih _ _ _ _ _ _ h k hf
            exact ⟨hn, cgd, hcgd, hm2, hi2, key, ev, List.mem_cons_of_mem _ hmem,
              hgate, hor⟩
          | some cgd0 =>
            rcases hc : CheckCyclicity name env fuel
                (if (lookupA inter ev0.id).isSome then inter
                 else inter ++ [(ev0.id, cgd0.orig)])
                (if (lookupA inter ev0.id).isSome then impl
                 else insertA impl ev0.id cgd0.orig)
                (.visit ev0.id cgd0 path visited) with ⟨rc, ic, mc⟩
            obtain ⟨sI, sM⟩ := cc_mono name env fuel _ _ _ _ _ _ hc
            have hsubI0 : SubM inter
                (if (lookupA inter ev0.id).isSome then inter
                 else inter ++ [(ev0.id, cgd0.orig)]) :=
              if_insert_subM inter ev0.id cgd0.orig
            have hsubM0 : SubM impl
                (if (lookupA inter ev0.id).isSome then impl
                 else insertA impl ev0.id cgd0.orig) :=
              if_insertA_subM impl _ ev0.id cgd0.orig
            have hstage : ∀ i2' m2' : SMap, SubM mc m2' → SubM ic i2' →
                FreshIn impl m2' k →
                (FreshIn impl
                    (if (lookupA inter ev0.id).isSome then impl
                     else insertA impl ev0.id cgd0.orig) k ∨
                 FreshIn (if (lookupA inter ev0.id).isSome then impl
                          else insertA impl ev0.id cgd0.orig) mc k ∨
                 FreshIn mc m2' k) := by
              intro i2' m2' hmc hic hfr
              rcases (FreshIn_compose hsubM0 (SubM.trans sM hmc) k).mp hfr with h1 | h2
              · exact Or.inl h1
              · rcases (FreshIn_compose sM hmc k).mp h2 with h3 | h4
                · exact Or.inr (Or.inl h3)
                · exact Or.inr (Or.inr h4)
            have hcaseA : FreshIn impl
                (if (lookupA inter ev0.id).isSome then impl
                 else insertA impl ev0.id cgd0.orig) k →
                k = ev0.id ∧ lookupA inter ev0.id = none ∧
                lookupA impl ev0.id = none := by
              intro hfr
              by_cases hpres : (lookupA inter ev0.id).isSome
              · rw [if_pos hpres] at hfr
                exact absurd hfr FreshIn_irrefl
              · rw [if_neg hpres] at hfr
                by_cases himpl : (lookupA impl ev0.id).isSome
                · rw [insertA_of_isSome _ himpl] at hfr
                  exact absurd hfr FreshIn_irrefl
                · have himplnone : lookupA impl ev0.id = none :=
                    Option.not_isSome_iff_eq_none.mp himpl
                  rw [insertA_of_none _ himplnone] at hfr
                  exact ⟨(FreshIn_append_iff cgd0.orig himplnone k).mp hfr,
                    Option.not_isSome_iff_eq_none.mp hpres, himplnone⟩
            have hA_concl : ∀ i2' m2' : SMap, SubM mc m2' → SubM ic i2' →
                k = ev0.id → lookupA inter ev0.id = none →
                lookupA impl ev0.id = none →
                lookupA inter k = none ∧
                ∃ cgd, lookupA env k = some cgd ∧ lookupA m2' k = some cgd.orig ∧
                  lookupA i2' k = some cgd.orig ∧
                  ∃ key ev, (key, ev) ∈ (key0, ev0) :: rest ∧ ev.kind = EKind.gate ∧
                    (k = ev.id ∨ GateReach env ev.id k) := by
              rintro i2' m2' hmc hic rfl hpres himplnone
              have hMval : lookupA
                  (if (lookupA inter ev0.id).isSome then impl
                   else insertA impl ev0.id cgd0.orig) ev0.id = some cgd0.orig := by
                rw [if_neg (by rw [hpres]; simp), insertA_of_none _ himplnone]
                exact append_lookup_self_of_none cgd0.orig himplnone
              have hIval : lookupA
                  (if (lookupA inter ev0.id).isSome then inter
                   else inter ++ [(ev0.id, cgd0.orig)]) ev0.id = some cgd0.orig := by
                rw [if_neg (by rw [hpres]; simp)]
                exact append_lookup_self_of_none cgd0.orig hpres
              exact ⟨hpres, cgd0, henv,
                hmc _ _ (sM _ _ hMval), hic _ _ (sI _ _ hIval),
                key0, ev0, List.mem_cons_self _ _, hg, Or.inl rfl⟩
            have hB_concl : ∀ i2' m2' : SMap, SubM mc m2' → SubM ic i2' →
                FreshIn (if (lookupA inter ev0.id).isSome then impl
                         else insertA impl ev0.id cgd0.orig) mc k →
                lookupA inter k = none ∧
                ∃ cgd, lookupA env k = some cgd ∧ lookupA m2' k = some cgd.orig ∧
                  lookupA i2' k = some cgd.orig ∧
                  ∃ key ev, (key, ev) ∈ (key0, ev0) :: rest ∧ ev.kind = EKind.gate ∧
                    (k = ev.id ∨ GateReach env ev.id k) := by
              intro i2' m2' hmc hic hfr
              obtain ⟨hn, cgd, hcgd, hmcv, hicv, hrch⟩ := ih _ _ _ _ _ _ hc k hfr
              exact ⟨SubM.none hsubI0 hn, cgd, hcgd, hmc _ _ hmcv, hic _ _ hicv,
                key0, ev0, List.mem_cons_self _ _, hg, Or.inr (hrch henv)⟩
            cases rc with
            | ok =>
              rw [cc_kids_gate_ok hg henv hc] at h
              obtain ⟨tI, tM⟩ := cc_mono name env fuel _ _ _ _ _ _ h
              rcases hstage i2 m2 tM tI hf with hfrA | hfrB | hfrC
              · obtain ⟨hk, hpres, himplnone⟩ := hcaseA hfrA
                exact hA_concl i2 m2 tM tI hk hpres himplnone
              · exact hB_concl i2 m2 tM tI hfrB
              · obtain ⟨hn, cgd, hcgd, hm2, hi2, key, ev, hmem, hgate, hor⟩ :=
                  ih _ _ _ _ _ _ h k hfrC
                exact ⟨SubM.none (SubM.trans hsubI0 sI) hn, cgd, hcgd, hm2, hi2,
                  key, ev, List.mem_cons_of_mem _ hmem, hgate, hor⟩
            | err e =>
              rw [cc_kids_gate_err hg henv hc] at h
              cases h
              rcases hstage i2 m2 (SubM.refl m2) (SubM.refl i2) hf with hfrA | hfrB | hfrC
              · obtain ⟨hk, hpres, himplnone⟩ := hcaseA hfrA
                exact hA_concl i2 m2 (SubM.refl m2) (SubM.refl i2) hk hpres himplnone
              · exact hB_concl i2 m2 (SubM.refl m2) (SubM.refl i2) hfrB
              · exact absurd hfrC FreshIn_irrefl
            | timeout =>
              rw [cc_kids_gate_timeout hg henv hc] at h
              cases h
              rcases hstage i2 m2 (SubM.refl m2) (SubM.refl i2) hf with hfrA | hfrB | hfrC
              · obtain ⟨hk, hpres, himplnone⟩ := hcaseA hfrA
                exact hA_concl i2 m2 (SubM.refl m2) (SubM.refl i2) hk hpres himplnone
              · exact hB_concl i2 m2 (SubM.refl m2) (SubM.refl i2) hfrB
              · exact absurd hfrC FreshIn_irrefl
        · rw [cc_kids_nongate hg] at h
          obtain ⟨hn, cgd, hcgd, hm2, hi2, key, ev, hmem, hgate, hor⟩ :=
            ih _ _ _ _ _ _ h k hf
          exact ⟨hn, cgd, hcgd, hm2, hi2, key, ev, List.mem_cons_of_mem _ hmem,
            hgate, hor⟩

end FaultTree
end scram

namespace scram
namespace FaultTree

/-- Insertions into `inter_events_` and `implicit_gates_` during
`CheckCyclicity` happen in lockstep: provided every implicit gate is also
registered (true of every state the program reaches), a key is freshly added
to one index exactly when it is freshly added to the other, and the
containment of `implicit_gates_` in `inter_events_` is preserved. -/
theorem cc_lockstep (name : String) (env : GEnv) :
    ∀ (fuel : Nat) (inter impl : SMap) (job : Job) (r : VRes) (i2 m2 : SMap),
      CheckCyclicity name env fuel inter impl job = (r, i2, m2) →
      (∀ k, (lookupA impl k).isSome → (lookupA inter k).isSome) →
      ((∀ k, (lookupA m2 k).isSome → (lookupA i2 k).isSome) ∧
       (∀ k, (FreshIn inter i2 k ↔ FreshIn impl m2 k))) := by
  intro fuel
  induction fuel with
  | zero =>
    intro inter impl job r i2 m2 h hinv
    rw [cc_zero] at h
    cases h
    exact ⟨hinv, fun k => ⟨fun hf => (FreshIn_irrefl hf).elim,
      fun hf => (FreshIn_irrefl hf).elim⟩⟩
  | succ fuel ih =>
    intro inter impl job r i2 m2 h hinv
    cases job with
    | visit gid gd path visited =>
      by_cases hv : gid ∈ visited
      · rw [cc_visit_hit hv] at h
        cases h
        exact ⟨hinv, fun k => ⟨fun hf => (FreshIn_irrefl hf).elim,
          fun hf => (FreshIn_irrefl hf).elim⟩⟩
      · rw [cc_visit_go hv] at h
        exact ih _ _ _ _ _ _ h hinv
    | kids cs path visited =>
      cases cs with
      | nil =>
        rw [cc_kids_nil] at h
        cases h
        exact ⟨hinv, fun k => ⟨fun hf => (FreshIn_irrefl hf).elim,
          fun hf => (FreshIn_irrefl hf).elim⟩⟩
      | cons kv rest =>
        obtain ⟨key0, ev0⟩ := kv
        by_cases hg : ev0.kind = EKind.gate
        · cases henv : lookupA env ev0.id with
          | none =>
            rw [cc_kids_envnone hg henv] at h
            exact ih _ _ _ _ _ _ h hinv
          | some cgd0 =>
            by_cases hpres : (lookupA inter ev0.id).isSome
            · rcases hc : CheckCyclicity name env fuel inter impl
                  (.visit ev0.id cgd0 path visited) with ⟨rc, ic, mc⟩
              have hc' : CheckCyclicity name env fuel
                  (if (lookupA inter ev0.id).isSome then inter
                   else inter ++ [(ev0.id, cgd0.orig)])
                  (if (lookupA inter ev0.id).isSome then impl
                   else insertA impl ev0.id cgd0.orig)
                  (.visit ev0.id cgd0 path visited) = (rc, ic, mc) := by
                rw [if_pos hpres, if_pos hpres]
                exact hc
              obtain ⟨sI, sM⟩ := cc_mono name env fuel _ _ _ _ _ _ hc
              obtain ⟨hinv1, hiff1⟩ := ih _ _ _ _ _ _ hc hinv
              cases rc with
              | ok =>
                rw [cc_kids_gate_ok hg henv hc'] at h
                obtain ⟨tI, tM⟩ := cc_mono name env fuel _ _ _ _ _ _ h
                obtain ⟨hinv2, hiff2⟩ := ih _ _ _ _ _ _ h hinv1
                refine ⟨hinv2, fun k => ?_⟩
                rw [FreshIn_compose sI tI k, FreshIn_compose sM tM k,
                  hiff1 k, hiff2 k]
              | err e =>
                rw [cc_kids_gate_err hg henv hc'] at h
                cases h
                exact ⟨hinv1, hiff1⟩
              | timeout =>
                rw [cc_kids_gate_timeout hg henv hc'] at h
                cases h
                exact ⟨hinv1, hiff1⟩
            · have hnone : lookupA inter ev0.id = none :=
                Option.not_isSome_iff_eq_none.mp hpres
              have himplnone : lookupA impl ev0.id = none := by
                cases hl : lookupA impl ev0.id with
                | none => rfl
                | some v =>
                  have := hinv ev0.id (by rw [hl]; rfl)
                  rw [hnone] at this
                  exact absurd this (by simp)
              rcases hc : CheckCyclicity name env fuel
                  (inter ++ [(ev0.id, cgd0.orig)]) (impl ++ [(ev0.id, cgd0.orig)])
                  (.visit ev0.id cgd0 path visited) with ⟨rc, ic, mc⟩
              have hc' : CheckCyclicity name env fuel
                  (if (lookupA inter ev0.id).isSome then inter
                   else inter ++ [(ev0.id, cgd0.orig)])
                  (if (lookupA inter ev0.id).isSome then impl
                   else insertA impl ev0.id cgd0.orig)
                  (.visit ev0.id cgd0 path visited) = (rc, ic, mc) := by
                rw [if_neg hpres, if_neg hpres, insertA_of_none _ himplnone]
                exact hc
              have hinv0 : ∀ k, (lookupA (impl ++ [(ev0.id, cgd0.orig)]) k).isSome →
                  (lookupA (inter ++ [(ev0.id, cgd0.orig)]) k).isSome := by
                intro k hk
                rcases (append_isSome_iff cgd0.orig k).mp hk with hs | rfl
                · exact (append_isSome_iff cgd0.orig k).mpr (Or.inl (hinv k hs))
                · exact (append_isSome_iff cgd0.orig ev0.id).mpr (Or.inr rfl)
              have hstageI : ∀ k, FreshIn inter (inter ++ [(ev0.id, cgd0.orig)]) k
                  ↔ k = ev0.id := FreshIn_append_iff cgd0.orig hnone
              have hstageM : ∀ k, FreshIn impl (impl ++ [(ev0.id, cgd0.orig)]) k
                  ↔ k = ev0.id := FreshIn_append_iff cgd0.orig himplnone
              obtain ⟨sI, sM⟩ := cc_mono name env fuel _ _ _ _ _ _ hc
              obtain ⟨hinv1, hiff1⟩ := ih _ _ _ _ _ _ hc hinv0
              cases rc with
              | ok =>
                rw [cc_kids_gate_ok hg henv hc'] at h
                obtain ⟨tI, tM⟩ := cc_mono name env fuel _ _ _ _ _ _ h
                obtain ⟨hinv2, hiff2⟩ := ih _ _ _ _ _ _ h hinv1
                refine ⟨hinv2, fun k => ?_⟩
                rw [FreshIn_compose (SubM.append inter _) (SubM.trans sI tI) k,
                  FreshIn_compose (SubM.append impl _) (SubM.trans sM tM) k,
                  FreshIn_compose sI tI k, FreshIn_compose sM tM k,
                  hstageI k, hstageM k, hiff1 k, hiff2 k]
              | err e =>
                rw [cc_kids_gate_err hg henv hc'] at h
                cases h
                refine ⟨hinv1, fun k => ?_⟩
                rw [FreshIn_compose (SubM.append inter _) sI k,
                  FreshIn_compose (SubM.append impl _) sM k,
                  hstageI k, hstageM k, hiff1 k]
              | timeout =>
                rw [cc_kids_gate_timeout hg henv hc'] at h
                cases h
                refine ⟨hinv1, fun k => ?_⟩
                rw [FreshIn_compose (SubM.append inter _) sI k,
                  FreshIn_compose (SubM.append impl _) sM k,
                  hstageI k, hstageM k, hiff1 k]
        · rw [cc_kids_nongate hg] at h
          exact ih _ _ _ _ _ _ h hinv

end FaultTree
end scram

namespace scram
namespace FaultTree

/-- On a successful run, every gate reachable from the visited gate through
gate-typed children ends up registered in `inter_events_`. -/
theorem cc_ok_reach (name : String) (env : GEnv) :
    ∀ (fuel : Nat) (inter impl : SMap) (job : Job) (i2 m2 : SMap),
      CheckCyclicity name env fuel inter impl job = (.ok, i2, m2) →
      (match job with
       | .visit gid gd _ _ => lookupA env gid = some gd →
           ∀ k, GateReach env gid k → (lookupA i2 k).isSome
       | .kids cs _ _ => ∀ key ev, (key, ev) ∈ cs → ev.kind = EKind.gate →
           ∀ cgd, lookupA env ev.id = some cgd →
             ((lookupA i2 ev.id).isSome ∧
              ∀ k, GateReach env ev.id k → (lookupA i2 k).isSome)) := by
  intro fuel
  induction fuel with
  | zero =>
    intro inter impl job i2 m2 h
    rw [cc_zero] at h
    simp at h
  | succ fuel ih =>
    intro inter impl job i2 m2 h
    cases job with
    | visit gid gd path visited =>
      by_cases hv : gid ∈ visited
      · rw [cc_visit_hit hv] at h
        simp at h
      · rw [cc_visit_go hv] at h
        have H := ih _ _ _ _ _ h
        intro hgd k hreach
        cases hreach with
        | child ha hmem hgate hcgd =>
          rw [hgd] at ha
          injection ha with hgd'
          subst hgd'
          exact (H _ _ hmem hgate _ hcgd).1
        | step ha hmem hgate hcgd hrest =>
          rw [hgd] at ha
          injection ha with hgd'
          subst hgd'
          exact (H _ _ hmem hgate _ hcgd).2 _ hrest
    | kids cs path visited =>
      cases cs with
      | nil =>
        intro key ev hmem
        exact absurd hmem (List.not_mem_nil _)
      | cons kv rest =>
        obtain ⟨key0, ev0⟩ := kv
        by_cases hg : ev0.kind = EKind.gate
        · cases henv : lookupA env ev0.id with
          | none =>
            rw [cc_kids_envnone hg henv] at h
            have H := ih _ _ _ _ _ h
            intro key ev hmem hgate cgd hcgd
            rcases List.mem_cons.mp hmem with heq | hmem'
            · cases heq
              rw [henv] at hcgd
              exact absurd hcgd (by simp)
            · exact H _ _ hmem' hgate _ hcgd
          | some cgd0 =>
            rcases hc : CheckCyclicity name env fuel
                (if (lookupA inter ev0.id).isSome then inter
                 else inter ++ [(ev0.id, cgd0.orig)])
                (if (lookupA inter ev0.id).isSome then impl
                 else insertA impl ev0.id cgd0.orig)
                (.visit ev0.id cgd0 path visited) with ⟨rc, ic, mc⟩
            cases rc with
            | ok =>
              rw [cc_kids_gate_ok hg henv hc] at h
              obtain ⟨sI, _⟩ := cc_mono name env fuel _ _ _ _ _ _ hc
              obtain ⟨tI, _⟩ := cc_mono name env fuel _ _ _ _ _ _ h
              have Hc := ih _ _ _ _ _ hc
              have Hr := ih _ _ _ _ _ h
              intro key ev hmem hgate cgd hcgd
              rcases List.mem_cons.mp hmem with heq | hmem'
              · cases heq
                rw [henv] at hcgd
                injection hcgd with hcgd'
                subst hcgd'
                refine ⟨SubM.isSome tI
                  (SubM.isSome sI (if_insert_isSome inter ev0.id cgd0.orig)), ?_⟩
                intro k hreach
                exact SubM.isSome tI (Hc henv k hreach)
              · exact Hr _ _ hmem' hgate _ hcgd
            | err e =>
              rw [cc_kids_gate_err hg henv hc] at h
              simp at h
            | timeout =>
              rw [cc_kids_gate_timeout hg henv hc] at h
              simp at h
        · rw [cc_kids_nongate hg] at h
          have H := ih _ _ _ _ _ h
          intro key ev hmem hgate cgd hcgd
          rcases List.mem_cons.mp hmem with heq | hmem'
          · cases heq
            exact absurd hgate hg
          · exact H _ _ hmem' hgate _ hcgd

end FaultTree
end scram

namespace scram
namespace FaultTree

/-- C7: during the validation DFS started at gate `gid` (whose definition
resolves in the object graph), provided every implicit gate is also a
registered gate (true of every state the program builds): (i) every binding
freshly added to `implicit_gates_` was absent from both indexes, is keyed by a
gate-typed descendant of `gid`, resolves in the object graph, and is added to
both indexes with the gate's original identifier as value; (ii) a key is
freshly added to `inter_events_` exactly when it is freshly added to
`implicit_gates_` — so gate-typed children already registered, and non-gate
children, leave both indexes unchanged; and (iii) on a successful run every
gate reachable from `gid` through gate-typed children ends up registered in
`inter_events_`. -/
theorem CheckCyclicity_implicit_gates (name : String) (env : GEnv) (fuel : Nat)
    (inter impl : SMap) (gid : String) (gd : GateDef) (path visited : List String)
    (r : VRes) (i2 m2 : SMap)
    (hrun : CheckCyclicity name env fuel inter impl (.visit gid gd path visited)
        = (r, i2, m2))
    (henv : lookupA env gid = some gd)
    (hsub : ∀ k, (lookupA impl k).isSome → (lookupA inter k).isSome) :
    (∀ k, FreshIn impl m2 k →
      lookupA inter k = none ∧
      ∃ cgd, lookupA env k = some cgd ∧ lookupA m2 k = some cgd.orig ∧
        lookupA i2 k = some cgd.orig ∧ GateReach env gid k) ∧
    (∀ k, (FreshIn inter i2 k ↔ FreshIn impl m2 k)) ∧
    (r = .ok → ∀ k, GateReach env gid k → (lookupA i2 k).isSome) := by
  refine ⟨?_, (cc_lockstep name env fuel inter impl _ r i2 m2 hrun hsub).2, ?_⟩
  · intro k hf
    obtain ⟨hn, cgd, hcgd, hm2, hi2, hrch⟩ :=
      cc_changes name env fuel _ _ _ _ _ _ hrun k hf
    exact ⟨hn, cgd, hcgd, hm2, hi2, hrch henv⟩
  · rintro rfl
    exact cc_ok_reach name env fuel _ _ _ _ _ hrun henv

/-- Witness for C7: on the cyclic two-gate tree, the top gate `g1` is the one
key freshly added to both `inter_events_` and `implicit_gates_` during the
DFS that started with only `g2` registered. -/
theorem CheckCyclicity_implicit_gates_witness :
    (FreshIn [("g2", "G2")] [("g2", "G2"), ("g1", "G1")] "g1"
      ↔ FreshIn ([] : SMap) [("g1", "G1")] "g1") :=
  (CheckCyclicity_implicit_gates "TheTree" cycEnv 10 [("g2", "G2")] [] "g1" g1Def
    [] []
    (.err "Detected a cyclicity in 'TheTree' fault tree:\nG1->G1->G2->G1")
    [("g2", "G2"), ("g1", "G1")] [("g1", "G1")]
    (by decide) (by decide)
    (fun k hk => by simp [lookupA] at hk)).2.1 "g1"

end FaultTree
end scram
